import Mathlib

/-!
Verification of the incremental-extraction engine of the PuntaFina_DW_Oro
repository (`scripts/build_facts.py`, `scripts/build_quotes.py`,
`scripts/build_inventory_snapshot.py`).

The Python functions are shallowly embedded as executable Lean definitions:
pure helpers become Lean functions, the per-target orchestration cycle becomes
explicit state passing over a `World`, fallible externals (database query,
file write) become injected `Except`/`Bool` oracles, and Python values that
matter to the claims (timestamps, JSON values, data-frame cells) become
inductive types.  Timestamps are modelled as natural numbers of microseconds;
the persisted watermark is the number of whole seconds, which is what the
source's `strftime("%Y-%m-%d %H:%M:%S")` rendering encodes (that fixed-width
rendering is strictly monotone in the underlying timestamp, so comparisons of
rendered watermarks agree with comparisons of the second counts modelled
here).
-/

namespace DW

/-! ## Decimal rendering

Models Python's `str`/`f"{n}"` decimal rendering of a non-negative integer,
used by `_make_unique_columns` (`f"{c}__{seen[c]}"`, build_quotes.py:144) and
by `json.dumps` for integers. -/

/-- The decimal digit character for `n % 10`. -/
def digitChar (n : Nat) : Char :=
  match n % 10 with
  | 0 => '0' | 1 => '1' | 2 => '2' | 3 => '3' | 4 => '4'
  | 5 => '5' | 6 => '6' | 7 => '7' | 8 => '8' | _ => '9'

/-- Fuel-bounded digit rendering; the fuel (any bound above the value)
keeps the recursion structural, so the definition evaluates by
reduction. -/
def decDigitsAux : Nat → Nat → List Char
  | 0, _ => []
  | fuel + 1, n =>
    if n < 10 then [digitChar n]
    else decDigitsAux fuel (n / 10) ++ [digitChar (n % 10)]

/-- Decimal digits of `n`, most significant first (the rendering of
Python's `str(n)` for a non-negative `n`). -/
def decDigits (n : Nat) : List Char := decDigitsAux (n + 1) n

/-- Numeric value of a digit character. -/
def digitVal (c : Char) : Nat := c.toNat - 48

/-- Value of a most-significant-first digit string. -/
def decVal (l : List Char) : Nat := l.foldl (fun a c => a * 10 + digitVal c) 0

theorem digitVal_digitChar (n : Nat) : digitVal (digitChar n) = n % 10 := by
  have h := Nat.mod_lt n (show 0 < 10 by omega)
  unfold digitChar
  interval_cases h : n % 10 <;> simp [h, digitVal]

theorem decVal_go (l : List Char) (a : Nat) :
    l.foldl (fun a c => a * 10 + digitVal c) a =
      a * 10 ^ l.length + l.foldl (fun a c => a * 10 + digitVal c) 0 := by
  induction l generalizing a with
  | nil => simp
  | cons c t ih =>
    simp only [List.foldl_cons, List.length_cons, Nat.zero_mul, Nat.zero_add]
    rw [ih (a * 10 + digitVal c), ih (digitVal c)]
    ring

theorem decVal_append_digit (l : List Char) (c : Char) :
    decVal (l ++ [c]) = decVal l * 10 + digitVal c := by
  simp [decVal, List.foldl_append]

theorem decVal_decDigitsAux (fuel : Nat) : ∀ n, n < fuel →
    decVal (decDigitsAux fuel n) = n := by
  induction fuel with
  | zero => intro n h; omega
  | succ fuel ih =>
    intro n h
    show decVal (if n < 10 then [digitChar n]
      else decDigitsAux fuel (n / 10) ++ [digitChar (n % 10)]) = n
    by_cases h10 : n < 10
    · rw [if_pos h10]
      simp [decVal, digitVal_digitChar]
      omega
    · rw [if_neg h10, decVal_append_digit, ih (n / 10) (by omega), digitVal_digitChar]
      omega

/-- `decVal` is a left inverse of `decDigits`: decimal rendering is faithful. -/
theorem decVal_decDigits (n : Nat) : decVal (decDigits n) = n :=
  decVal_decDigitsAux (n + 1) n (Nat.lt_succ_self n)

theorem decDigits_injective : Function.Injective decDigits := by
  intro a b h
  have := decVal_decDigits a
  rw [h, decVal_decDigits] at this
  omega

theorem isDigit_digitChar (n : Nat) : (digitChar n).isDigit = true := by
  have h := Nat.mod_lt n (show 0 < 10 by omega)
  unfold digitChar
  interval_cases h : n % 10 <;> simp [h]

theorem decDigitsAux_all_digit (fuel : Nat) : ∀ n, ∀ c ∈ decDigitsAux fuel n,
    c.isDigit = true := by
  induction fuel with
  | zero => intro n c hc; simp [decDigitsAux] at hc
  | succ fuel ih =>
    intro n c hc
    rw [show decDigitsAux (fuel + 1) n = if n < 10 then [digitChar n]
      else decDigitsAux fuel (n / 10) ++ [digitChar (n % 10)] from rfl] at hc
    by_cases h10 : n < 10
    · rw [if_pos h10] at hc
      rw [List.mem_singleton.1 hc]
      exact isDigit_digitChar n
    · rw [if_neg h10] at hc
      rcases List.mem_append.1 hc with h | h
      · exact ih (n / 10) c h
      · rw [List.mem_singleton.1 h]
        exact isDigit_digitChar (n % 10)

theorem decDigits_all_digit (n : Nat) : ∀ c ∈ decDigits n, c.isDigit = true :=
  decDigitsAux_all_digit (n + 1) n

theorem decDigits_ne_nil (n : Nat) : decDigits n ≠ [] := by
  show (if n < 10 then [digitChar n]
    else decDigitsAux n (n / 10) ++ [digitChar (n % 10)]) ≠ []
  split <;> simp

/-! ## Incremental predicate policy

`build_where_incremental` (build_facts.py:189-202; the build_quotes.py:396-403
version is identical up to the unused `fact` argument).  The `last_wm`
argument is the string read from the state file; Python's
`if incr_enabled and last_wm` tests the *truthiness* of the string, so an
empty string counts as absent. -/

/-- Python truthiness of an `Optional[str]`. -/
def pyTruthy : Option String → Bool
  | none => false
  | some s => !(s == "")

/-- Embedding of `build_where_incremental(fact, column, incr_enabled, last_wm)`
(build_facts.py:189-202).  Returns `(where_clause, params, incr_used)`; the
`params` component models the `{"wm": last_wm}` dict as the bound value. -/
def build_where_incremental (column : String) (incrEnabled : Bool)
    (lastWm : Option String) : String × Option String × Bool :=
  if incrEnabled && pyTruthy lastWm then
    ("WHERE " ++ column ++ " > %(wm)s", lastWm, true)
  else
    ("", none, false)

/-- Semantics of the generated predicate `column > %(wm)s` on one source row:
the row (incremental-column value `t`, in microseconds) is selected exactly
when its timestamp is strictly above the bound watermark `wm` (in
microseconds). -/
def strictPredSelects (wm t : Nat) : Bool := wm < t

/-! ## Result frames and `max_timestamp`

A result frame is modelled by its timestamp-relevant content: a list of named
columns, each a list of cells.  A cell is `none` for SQL `NULL`/`NaT`, or
`some t` with `t` the timestamp in microseconds.  A frame with zero rows has
every column's cell list empty (`pandas.DataFrame.empty`). -/

/-- One named column of a result frame (timestamp cells, microseconds). -/
def Frame : Type := List (String × List (Option Nat))

/-- `df[c]` — first column named `c`, as in a pandas frame. -/
def findCol (df : Frame) (c : String) : Option (List (Option Nat)) :=
  (List.find? (fun p => p.1 == c) df).map Prod.snd

/-- The non-null cells of a column (`dropna`). -/
def somes (cells : List (Option Nat)) : List Nat := cells.filterMap id

/-- Zero-row frame: every column has an empty cell list
(`pandas.DataFrame.empty` is true when some axis has length 0; for a
well-formed frame all columns share the row count). -/
def frameEmpty (df : Frame) : Bool := df.all (fun p => p.2.isEmpty)

/-- Truncation of a microsecond timestamp to whole seconds — the information
content of the source's `strftime("%Y-%m-%d %H:%M:%S")` rendering
(build_facts.py:212), which drops sub-second precision. -/
def truncSec (t : Nat) : Nat := t / 1000000

/-- Maximum of a non-empty list of timestamps (`pandas` `.max()` skips
nulls; callers guard non-emptiness). -/
def maxTs (l : List Nat) : Nat := l.foldl max 0

/-- Embedding of `max_timestamp(df, cols)` (build_facts.py:204-215): walk the
candidate columns in order; at the first one that exists in the frame and is
not entirely null, return the second-truncated rendering of its maximum
non-null timestamp; if no candidate qualifies, return `None`. -/
def max_timestamp (df : Frame) (cols : List String) : Option Nat :=
  match cols with
  | [] => none
  | c :: rest =>
    match findCol df c with
    | some cells =>
      if somes cells ≠ [] then some (truncSec (maxTs (somes cells)))
      else max_timestamp df rest
    | none => max_timestamp df rest

/-! ## Watermark store (`read_watermark` / `write_watermark`)

`read_watermark` (build_facts.py:123-131, identical in build_quotes.py:
173-181) reads `data/_state/<fact>.json`, parses it as JSON and returns
`data.get("watermark")`; *any* exception (unreadable file, invalid JSON,
JSON value that is not a dict) is caught and turned into `None`.  The file
system and the outcome of `json.loads` are modelled by `StateFile`; JSON
values by `JVal` (defined with the sanitizer model below, shared). -/

/-- A JSON value, as returned by `json.loads` / consumed by `json.dumps`.
Strings are lists of characters to ease reasoning about escaping. -/
inductive JVal : Type where
  | jNull : JVal
  | jBool : Bool → JVal
  | jInt : Int → JVal
  | jStr : List Char → JVal
  | jArr : List JVal → JVal
  | jObj : List (List Char × JVal) → JVal

/-- State of a per-target watermark state file, with the outcome of
`json.loads` on its text made explicit: the file is absent, present but not
valid JSON (`json.loads` raises), or present with a parsed JSON value. -/
inductive StateFile : Type where
  | absent : StateFile
  | invalidJson : StateFile
  | parsed : JVal → StateFile

/-- `dict.get "watermark"` on a parsed JSON value: only a JSON object
supports `.get` (anything else raises `AttributeError`, which
`read_watermark` catches); a missing key yields `None` (and a key bound to
JSON `null` yields `None` as well, Python-side). -/
def jsonGetWatermark : JVal → Option JVal
  | JVal.jObj kvs =>
    match List.find? (fun p => p.1 == "watermark".data) kvs with
    | some (_, JVal.jNull) => none
    | some (_, v) => some v
    | none => none
  | _ => none

/-- Embedding of `read_watermark(fact_name)` (build_facts.py:123-131): total
over every file state; every failure mode maps to `None`. -/
def read_watermark (f : StateFile) : Option JVal :=
  match f with
  | StateFile.absent => none
  | StateFile.invalidJson => none
  | StateFile.parsed j => jsonGetWatermark j

/-! ## Orchestrator (`main` of build_facts.py, per-target cycle)

The per-target block (build_facts.py:232-251 for `fact_ventas_linea`,
253-271 for `fact_pago`; build_quotes.py:435-470 is the same shape) is

    try:
        df = read_sql_to_df(conn, q, params)      -- may raise
        export_table(df, fact_name)               -- may raise
        wm = max_timestamp(df, cols)
        if wm and incr_enabled:
            write_watermark(fact_name, wm)
    except Exception as e:
        logging.error(...)

Fallible externals are injected: the query outcome as an `Except`, the
parquet/csv write (together with any exception out of the sanitizer, which
runs inside the same `try`) as a `Bool` oracle.  `World` is the durable
state: one watermark record and one exported artifact per target name. -/

/-- Observable events of one per-target cycle, in order of occurrence. -/
inductive Event : Type where
  | warnedEmpty : String → Event
  | exported : String → Event
  | wroteWatermark : String → Nat → Event
  | loggedError : String → Event
deriving DecidableEq

/-- Durable state across the run: per-target watermark state files (the
rendered second count) and per-target exported artifacts. -/
structure World : Type where
  wmFile : String → Option Nat
  artifact : String → Option Frame

/-- `write_watermark(fact_name, wm)` (build_facts.py:133-135). -/
def write_watermark (w : World) (fact : String) (wm : Nat) : World :=
  { w with wmFile := fun f => if f = fact then some wm else w.wmFile f }

/-- The parquet replace (`unlink(missing_ok=True)` then `to_parquet`,
build_facts.py:108-109). -/
def putArtifact (w : World) (fact : String) (df : Frame) : World :=
  { w with artifact := fun f => if f = fact then some df else w.artifact f }

/-- Embedding of `export_table(df, name)` (build_facts.py:100-115): an empty
frame is logged as a warning and nothing is written; otherwise the sanitized
frame replaces the prior artifact.  `writeOk = false` injects an exception
out of the sanitize/write steps (`Except.error`), to be caught by the caller;
sanitization does not alter timestamp columns, so the artifact keeps `df`'s
timestamp content. -/
def export_table (df : Frame) (fact : String) (writeOk : Bool) (w : World) :
    Except Unit (World × List Event) :=
  if frameEmpty df then Except.ok (w, [Event.warnedEmpty fact])
  else if writeOk then Except.ok (putArtifact w fact df, [Event.exported fact])
  else Except.error ()

/-- One extraction target of the orchestrator loop: name, incremental flag,
and the candidate watermark columns passed to `max_timestamp`. -/
structure Target : Type where
  name : String
  incrEnabled : Bool
  wmCols : List String

/-- One per-target cycle of `main` (build_facts.py:241-251): the `try` block
runs query, export, watermark computation and conditional watermark write;
any exception is caught, logged, and ends the cycle with the durable state
untouched. -/
def runFactTarget (t : Target) (queryRes : Except Unit Frame) (writeOk : Bool)
    (w : World) : World × List Event :=
  match queryRes with
  | Except.error _ => (w, [Event.loggedError t.name])
  | Except.ok df =>
    match export_table df t.name writeOk w with
    | Except.error _ => (w, [Event.loggedError t.name])
    | Except.ok (w1, evs) =>
      match max_timestamp df t.wmCols, t.incrEnabled with
      | some wm, true =>
        (write_watermark w1 t.name wm, evs ++ [Event.wroteWatermark t.name wm])
      | some _, false => (w1, evs)
      | none, _ => (w1, evs)

/-- The orchestrator processes its targets in sequence (build_facts.py:
232-271): each target's cycle runs regardless of the outcomes of the earlier
ones.  `oracle` gives each target's injected query/write outcomes; the
result pairs each target name with its cycle's event trace. -/
def runFactTargets (ts : List Target)
    (oracle : String → Except Unit Frame × Bool) (w : World) :
    World × List (String × List Event) :=
  match ts with
  | [] => (w, [])
  | t :: rest =>
    let o := oracle t.name
    let r1 := runFactTarget t o.1 o.2 w
    let r2 := runFactTargets rest oracle r1.1
    (r2.1, (t.name, r1.2) :: r2.2)

/-- A cycle fails when the query raises, or the frame is non-empty and the
sanitize/write step raises. -/
def cycleFailed (queryRes : Except Unit Frame) (writeOk : Bool) : Bool :=
  match queryRes with
  | Except.error _ => true
  | Except.ok df => !frameEmpty df && !writeOk

/-! ## Query builder: quote header (`build_query_fact_cotizacion`)

build_quotes.py:202-254 introspects the column set of
`public.oro_sale_quote` and assembles a SELECT list of eleven items, one per
logical output column; a missing physical column degrades to a typed fallback
expression under the same alias.  The select items are modelled
syntactically. -/

/-- `pick(*cands)` (build_quotes.py:211-215 and its clones): the first
candidate physical name present in the introspected column set. -/
def pick (cols : List String) (cands : List String) : Option String :=
  List.find? (fun c => cols.contains c) cands

/-- One select-list expression of the generated query. -/
inductive SqlExpr : Type where
  | phys : String → SqlExpr
  | nullLit : String → SqlExpr
  | coalesceStatus : String → SqlExpr
  | litSinEstado : SqlExpr
deriving DecidableEq

/-- A select-list item `expr AS outName`. -/
structure SelItem : Type where
  expr : SqlExpr
  outName : String
deriving DecidableEq

/-- Is the expression a typed `NULL` literal? -/
def isNullLit : SqlExpr → Bool
  | SqlExpr.nullLit _ => true
  | _ => false

/-- Candidate column mappings of the quote header
(build_quotes.py:218-228). -/
def quoteHeaderCands : String → List String
  | "quote_id" => ["id"]
  | "customer_id" => ["customer_id"]
  | "customer_user_id" => ["customer_user_id"]
  | "website_id" => ["website_id"]
  | "po_number" => ["po_number"]
  | "currency_code" => ["currency", "base_currency", "subtotal_currency", "total_currency"]
  | "subtotal" => ["subtotal", "subtotal_value", "base_subtotal_value"]
  | "total" => ["total", "total_value", "base_total_value"]
  | "created_at" => ["created_at", "createdat"]
  | "updated_at" => ["updated_at", "updatedat"]
  | "estado" => ["internal_status_name", "status", "status_name"]
  | _ => []

/-- `f"{c_x} AS name" if c_x else f"NULL::ty AS name"`: the expression of one
select item whose fallback is a typed `NULL` literal. -/
def resolveExpr (cols : List String) (cands : List String) (nullTy : String) : SqlExpr :=
  match pick cols cands with
  | some c => SqlExpr.phys c
  | none => SqlExpr.nullLit nullTy

/-- The `estado` expression (build_quotes.py:242): `COALESCE(c, 'Sin estado')`
when a status column resolves, the *literal* `'Sin estado'::text` — not a
`NULL` literal — when none does. -/
def resolveEstado (cols : List String) : SqlExpr :=
  match pick cols (quoteHeaderCands "estado") with
  | some c => SqlExpr.coalesceStatus c
  | none => SqlExpr.litSinEstado

/-- Embedding of the SELECT-list assembly of `build_query_fact_cotizacion`
(build_quotes.py:230-242), given the introspected physical column set of
`public.oro_sale_quote`.  Each `sel.append(... if c_x else ...)` becomes one
list element. -/
def quoteHeaderSelect (cols : List String) : List SelItem :=
  [ ⟨resolveExpr cols (quoteHeaderCands "quote_id") "bigint", "quote_id"⟩,
    ⟨resolveExpr cols (quoteHeaderCands "customer_id") "bigint", "customer_id"⟩,
    ⟨resolveExpr cols (quoteHeaderCands "customer_user_id") "bigint", "customer_user_id"⟩,
    ⟨resolveExpr cols (quoteHeaderCands "website_id") "bigint", "website_id"⟩,
    ⟨resolveExpr cols (quoteHeaderCands "po_number") "text", "po_number"⟩,
    ⟨resolveExpr cols (quoteHeaderCands "currency_code") "text", "currency_code"⟩,
    ⟨resolveExpr cols (quoteHeaderCands "subtotal") "numeric", "subtotal"⟩,
    ⟨resolveExpr cols (quoteHeaderCands "total") "numeric", "total"⟩,
    ⟨resolveExpr cols (quoteHeaderCands "created_at") "timestamp", "created_at"⟩,
    ⟨resolveExpr cols (quoteHeaderCands "updated_at") "timestamp", "updated_at"⟩,
    ⟨resolveEstado cols, "estado"⟩ ]

/-- `build_query_fact_cotizacion` raises only when the base table is absent
(build_quotes.py:206-207); otherwise it returns the query (modelled by its
select list).  `tableExists` is the introspection outcome for
`public.oro_sale_quote`. -/
def build_query_fact_cotizacion (tableExists : Bool) (cols : List String) :
    Except String (List SelItem) :=
  if tableExists then Except.ok (quoteHeaderSelect cols)
  else Except.error "No existe public.oro_sale_quote"

/-! ## Query builder: inventory snapshot mandatory id
(`build_snapshot`, build_inventory_snapshot.py:139-223)

Only the mandatory-column check matters to the claims: `product_col` is
resolved through its candidate list and, when unresolvable, a `ValueError`
naming the missing column is raised (lines 168-170). -/

/-- Candidate physical names for the snapshot's mandatory `product_id`
(build_inventory_snapshot.py:143). -/
def productIdCands : List String :=
  ["product_id", "product", "productid", "producto_id"]

/-- The mandatory-id resolution step of `build_snapshot`
(build_inventory_snapshot.py:168-171): the error message names the missing
column; on success the resolved physical column is returned. -/
def build_snapshot_product_col (cols : List String) : Except String String :=
  match pick cols productIdCands with
  | some c => Except.ok c
  | none =>
    Except.error
      "La vista 'oro_inventory_level_granular' no expone 'product_id' (o equivalente)."

/-- Does the second character list start the first? -/
def startsWith : List Char → List Char → Bool
  | _, [] => true
  | [], _ :: _ => false
  | a :: t, b :: u => a == b && startsWith t u

/-- Does the second character list occur inside the first? -/
def containsSub : List Char → List Char → Bool
  | [], needle => needle.isEmpty
  | a :: t, needle => startsWith (a :: t) needle || containsSub t needle

/-! ## Deterministic minimum-id child pick (`build_query_fact_cotizacion_linea`)

build_quotes.py:306-318 (requests) and 339-351 (offers) emit, for a detail
table `d(id, parent)`, the SQL pattern

    LEFT JOIN ( SELECT d1.* FROM d d1
                JOIN (SELECT parent, MIN(id) AS min_id FROM d GROUP BY parent) dmin
                  ON dmin.parent = d1.parent AND dmin.min_id = d1.id ) x
      ON x.parent = qp.id

The relational meaning of that pattern is modelled below: `pickedRows` is the
inner join of the detail table with its grouped-minimum subquery, and
`leftJoinPick` is the outer LEFT JOIN against the parent keys. -/

/-- A row of the detail (child) table: surrogate id and parent key. -/
structure ChildRow : Type where
  id : Nat
  parent : Nat
deriving DecidableEq

/-- The child ids grouped under one parent key. -/
def childIds (children : List ChildRow) (p : Nat) : List Nat :=
  (children.filter (fun c => c.parent == p)).map ChildRow.id

/-- `SELECT parent, MIN(id) ... GROUP BY parent`, looked up at `p`. -/
def minIdFor (children : List ChildRow) (p : Nat) : Option Nat :=
  (childIds children p).min?

/-- The inner join of the detail table with its grouped-minimum subquery:
exactly the detail rows whose id is the minimum id of their parent group. -/
def pickedRows (children : List ChildRow) : List ChildRow :=
  children.filter (fun c => minIdFor children c.parent == some c.id)

/-- `LEFT JOIN ... ON x.parent = qp.id`: one output row per match, or a
single null-extended row for a parent with no match. -/
def leftJoinPick (parents : List Nat) (children : List ChildRow) :
    List (Nat × Option ChildRow) :=
  (parents.map (fun p =>
    match (pickedRows children).filter (fun c => c.parent == p) with
    | [] => [(p, (none : Option ChildRow))]
    | ms => ms.map (fun c => (p, some c)))).flatten

/-! ## Column de-duplication (`_make_unique_columns`)

build_quotes.py:135-145:

    seen = {}
    out = []
    for c in cols:
        if c not in seen:
            seen[c] = 0
            out.append(c)
        else:
            seen[c] += 1
            out.append(f"{c}__{seen[c]}")
    return out

The `seen` dict is modelled as an association list with the dict operations
made explicit. -/

/-- `c in seen` / `seen[c]` lookup. -/
def lookupSeen : List (String × Nat) → String → Option Nat
  | [], _ => none
  | (k, v) :: t, c => if k = c then some v else lookupSeen t c

/-- `seen[c] = v` (insert or overwrite). -/
def setSeen : List (String × Nat) → String → Nat → List (String × Nat)
  | [], c, v => [(c, v)]
  | (k, w) :: t, c, v => if k = c then (c, v) :: t else (k, w) :: setSeen t c v

/-- The loop of `_make_unique_columns`, with the running `seen` dict. -/
def muGo (seen : List (String × Nat)) : List String → List String
  | [] => []
  | c :: rest =>
    match lookupSeen seen c with
    | none => c :: muGo (setSeen seen c 0) rest
    | some k =>
      (c ++ "__" ++ String.mk (decDigits (k + 1))) :: muGo (setSeen seen c (k + 1)) rest

/-- Embedding of `_make_unique_columns(cols)` (build_quotes.py:135-145). -/
def _make_unique_columns (cols : List String) : List String := muGo [] cols

/-- The name emitted for an occurrence of `c` preceded by the prefix `pre` of
already-processed columns: verbatim on first occurrence, `c__k` for the k-th
later duplicate. -/
def renameAt (pre : List String) (c : String) : String :=
  if pre.count c = 0 then c else c ++ "__" ++ String.mk (decDigits (pre.count c))

/-- `_make_unique_columns` re-expressed positionally over the processed
prefix. -/
def muFormula (pre : List String) : List String → List String
  | [] => []
  | c :: rest => renameAt pre c :: muFormula (pre ++ [c]) rest

/-- Double-underscore occurrence test: `true` iff `"__"` occurs in the
character list. -/
def containsDD : List Char → Bool
  | [] => false
  | [_] => false
  | a :: b :: t => (a == '_' && b == '_') || containsDD (b :: t)

/-! ## Value sanitizer (`to_json_string` / `sanitize_dataframe`)

build_facts.py:84-98 (the same helpers recur verbatim in build_quotes.py and
build_inventory_snapshot.py).  A cell value is modelled by `PyVal`, covering
the scalar types a sanitized column carries (`None`, `bool`, `int`, `str`)
and the three composite types the sanitizer tests with
`isinstance(x, (dict, list, tuple))`.  (Floating-point cells are outside
this model.)  `json.dumps(x, ensure_ascii=False)` is embedded as `dumpsVal`,
producing exactly CPython's default rendering: `", "` / `": "` separators,
`"` and `\` and control characters escaped, everything else verbatim.
`json.loads` is embedded as a recursive-descent JSON reader (`json_loads`)
producing a `JVal`. -/

/-- A Python cell value. -/
inductive PyVal : Type where
  | pyNone : PyVal
  | pyBool : Bool → PyVal
  | pyInt : Int → PyVal
  | pyStr : List Char → PyVal
  | pyList : List PyVal → PyVal
  | pyTuple : List PyVal → PyVal
  | pyDict : List (List Char × PyVal) → PyVal

/-- `isinstance(x, (dict, list, tuple))` (build_facts.py:85). -/
def isComposite : PyVal → Bool
  | PyVal.pyList _ => true
  | PyVal.pyTuple _ => true
  | PyVal.pyDict _ => true
  | _ => false

/-- Lowercase hex digit character for `n % 16` (`'\u%04x'`). -/
def hexChar (n : Nat) : Char :=
  match n % 16 with
  | 0 => '0' | 1 => '1' | 2 => '2' | 3 => '3' | 4 => '4'
  | 5 => '5' | 6 => '6' | 7 => '7' | 8 => '8' | 9 => '9'
  | 10 => 'a' | 11 => 'b' | 12 => 'c' | 13 => 'd' | 14 => 'e' | _ => 'f'

/-- CPython `json` escaping of one character inside a string literal
(`ensure_ascii=False`): `"` and `\` and the five short control escapes, a
`\u00xx` escape for the remaining control characters, every other character
verbatim. -/
def escChar (c : Char) : List Char :=
  if c = '"' then ['\\', '"']
  else if c = '\\' then ['\\', '\\']
  else if c = '\n' then ['\\', 'n']
  else if c = '\t' then ['\\', 't']
  else if c = '\r' then ['\\', 'r']
  else if c = Char.ofNat 8 then ['\\', 'b']
  else if c = Char.ofNat 12 then ['\\', 'f']
  else if c.toNat < 32 then
    ['\\', 'u', '0', '0', hexChar (c.toNat / 16), hexChar (c.toNat % 16)]
  else [c]

/-- Body of a JSON string literal: each character escaped. -/
def escBody : List Char → List Char
  | [] => []
  | c :: t => escChar c ++ escBody t

/-- A JSON string literal with its quotes. -/
def escString (s : List Char) : List Char := '"' :: (escBody s ++ ['"'])

/-- Decimal rendering of a Python `int` by `json.dumps`. -/
def intChars (n : Int) : List Char :=
  if n < 0 then '-' :: decDigits n.natAbs else decDigits n.toNat

/-- `", "`-separated joining of rendered items (the `json.dumps` default
item separator). -/
def joinSep : List (List Char) → List Char
  | [] => []
  | [x] => x
  | x :: y :: t => x ++ ',' :: ' ' :: joinSep (y :: t)

mutual

/-- Embedding of `json.dumps(x, ensure_ascii=False)` on a `PyVal`
(build_facts.py:87): tuples render as JSON arrays, like lists. -/
def dumpsVal : PyVal → List Char
  | PyVal.pyNone => ['n', 'u', 'l', 'l']
  | PyVal.pyBool true => ['t', 'r', 'u', 'e']
  | PyVal.pyBool false => ['f', 'a', 'l', 's', 'e']
  | PyVal.pyInt n => intChars n
  | PyVal.pyStr s => escString s
  | PyVal.pyList xs => '[' :: (joinSep (dumpsList xs) ++ [']'])
  | PyVal.pyTuple xs => '[' :: (joinSep (dumpsList xs) ++ [']'])
  | PyVal.pyDict kvs => '{' :: (joinSep (dumpsKVs kvs) ++ ['}'])

/-- Renderings of the elements of a JSON array. -/
def dumpsList : List PyVal → List (List Char)
  | [] => []
  | x :: t => dumpsVal x :: dumpsList t

/-- Renderings of the `"key": value` members of a JSON object. -/
def dumpsKVs : List (List Char × PyVal) → List (List Char)
  | [] => []
  | (k, v) :: t => (escString k ++ ':' :: ' ' :: dumpsVal v) :: dumpsKVs t

end

/-- Embedding of `to_json_string(x)` (build_facts.py:84-90): composite
values are serialized to their JSON text; scalars pass through unchanged.
(`json.dumps` is total on this value domain, so the `except` fallback to
`str(x)` is dead here.) -/
def to_json_string (x : PyVal) : PyVal :=
  if isComposite x then PyVal.pyStr (dumpsVal x) else x

/-- One column pass of `sanitize_dataframe` (build_facts.py:92-98): sample
the first 10 non-null cells; if any is composite, rewrite the whole column
through `to_json_string`. -/
def sanitizeColumn (cells : List PyVal) : List PyVal :=
  if ((cells.filter (fun v => !(v matches PyVal.pyNone))).take 10).any isComposite
  then cells.map to_json_string
  else cells

mutual

/-- The JSON value that `json.loads` returns for a serialized `PyVal`:
structure preserved, except that tuples become arrays. -/
def jsonOfPy : PyVal → JVal
  | PyVal.pyNone => JVal.jNull
  | PyVal.pyBool b => JVal.jBool b
  | PyVal.pyInt n => JVal.jInt n
  | PyVal.pyStr s => JVal.jStr s
  | PyVal.pyList xs => JVal.jArr (jsonOfList xs)
  | PyVal.pyTuple xs => JVal.jArr (jsonOfList xs)
  | PyVal.pyDict kvs => JVal.jObj (jsonOfKVs kvs)

def jsonOfList : List PyVal → List JVal
  | [] => []
  | x :: t => jsonOfPy x :: jsonOfList t

def jsonOfKVs : List (List Char × PyVal) → List (List Char × JVal)
  | [] => []
  | (k, v) :: t => (k, jsonOfPy v) :: jsonOfKVs t

end

mutual

/-- The Python value `json.loads` builds from a JSON value: arrays become
lists (never tuples). -/
def pyOfJson : JVal → PyVal
  | JVal.jNull => PyVal.pyNone
  | JVal.jBool b => PyVal.pyBool b
  | JVal.jInt n => PyVal.pyInt n
  | JVal.jStr s => PyVal.pyStr s
  | JVal.jArr xs => PyVal.pyList (pyOfJsonList xs)
  | JVal.jObj kvs => PyVal.pyDict (pyOfJsonKVs kvs)

def pyOfJsonList : List JVal → List PyVal
  | [] => []
  | x :: t => pyOfJson x :: pyOfJsonList t

def pyOfJsonKVs : List (List Char × JVal) → List (List Char × PyVal)
  | [] => []
  | (k, v) :: t => (k, pyOfJson v) :: pyOfJsonKVs t

end

mutual

/-- No tuple occurs anywhere in the value. -/
def tupleFree : PyVal → Bool
  | PyVal.pyTuple _ => false
  | PyVal.pyList xs => tupleFreeList xs
  | PyVal.pyDict kvs => tupleFreeKVs kvs
  | _ => true

def tupleFreeList : List PyVal → Bool
  | [] => true
  | x :: t => tupleFree x && tupleFreeList t

def tupleFreeKVs : List (List Char × PyVal) → Bool
  | [] => true
  | (_, v) :: t => tupleFree v && tupleFreeKVs t

end

/-! ## JSON reader (`json.loads`) -/

/-- JSON insignificant whitespace. -/
def isWsChar (c : Char) : Bool :=
  c == ' ' || c == '\t' || c == '\n' || c == '\r'

/-- Skip insignificant whitespace. -/
def skipWs (cs : List Char) : List Char := cs.dropWhile isWsChar

/-- Value of one hex digit. -/
def hexVal (c : Char) : Option Nat :=
  if c.isDigit then some (c.toNat - 48)
  else if 'a' ≤ c && c ≤ 'f' then some (c.toNat - 87)
  else if 'A' ≤ c && c ≤ 'F' then some (c.toNat - 55)
  else none

/-- The character denoted by a short escape `\e`. -/
def unescChar (c : Char) : Option Char :=
  if c = '"' then some '"'
  else if c = '\\' then some '\\'
  else if c = '/' then some '/'
  else if c = 'b' then some (Char.ofNat 8)
  else if c = 'f' then some (Char.ofNat 12)
  else if c = 'n' then some '\n'
  else if c = 'r' then some '\r'
  else if c = 't' then some '\t'
  else none

/-- Read the body of a JSON string literal up to its closing quote,
resolving escapes; returns the decoded characters and the remaining
input. -/
def parseStrBody : List Char → Option (List Char × List Char)
  | [] => none
  | c :: rest =>
    if c = '"' then some ([], rest)
    else if c = '\\' then
      match rest with
      | 'u' :: a :: b :: x :: y :: rest2 =>
        (hexVal a).bind fun va =>
        (hexVal b).bind fun vb =>
        (hexVal x).bind fun vx =>
        (hexVal y).bind fun vy =>
        (parseStrBody rest2).map fun p =>
          (Char.ofNat (((va * 16 + vb) * 16 + vx) * 16 + vy) :: p.1, p.2)
      | e :: rest2 =>
        (unescChar e).bind fun u =>
        (parseStrBody rest2).map fun p => (u :: p.1, p.2)
      | [] => none
    else (parseStrBody rest).map fun p => (c :: p.1, p.2)

/-- Read a run of decimal digits as a natural number. -/
def parseNatChars (cs : List Char) : Option (Nat × List Char) :=
  if cs.takeWhile Char.isDigit = [] then none
  else some (decVal (cs.takeWhile Char.isDigit), cs.dropWhile Char.isDigit)

mutual

/-- Read one JSON value (fuel-bounded recursive descent). -/
def parseVal : Nat → List Char → Option (JVal × List Char)
  | 0, _ => none
  | fuel + 1, cs =>
    match skipWs cs with
    | [] => none
    | c :: rest =>
      if c = '"' then (parseStrBody rest).map fun p => (JVal.jStr p.1, p.2)
      else if c = 't' then
        match rest with
        | 'r' :: 'u' :: 'e' :: r => some (JVal.jBool true, r)
        | _ => none
      else if c = 'f' then
        match rest with
        | 'a' :: 'l' :: 's' :: 'e' :: r => some (JVal.jBool false, r)
        | _ => none
      else if c = 'n' then
        match rest with
        | 'u' :: 'l' :: 'l' :: r => some (JVal.jNull, r)
        | _ => none
      else if c = '-' then
        (parseNatChars rest).map fun p => (JVal.jInt (-(p.1 : Int)), p.2)
      else if c = '[' then
        match skipWs rest with
        | [] => none
        | d :: r =>
          if d = ']' then some (JVal.jArr [], r)
          else (parseElems fuel (d :: r)).map fun p => (JVal.jArr p.1, p.2)
      else if c = '{' then
        match skipWs rest with
        | [] => none
        | d :: r =>
          if d = '}' then some (JVal.jObj [], r)
          else (parseMembers fuel (d :: r)).map fun p => (JVal.jObj p.1, p.2)
      else if c.isDigit then
        (parseNatChars (c :: rest)).map fun p => (JVal.jInt (p.1 : Int), p.2)
      else none

/-- Read the elements of a non-empty JSON array, consuming the closing
bracket. -/
def parseElems : Nat → List Char → Option (List JVal × List Char)
  | 0, _ => none
  | fuel + 1, cs =>
    (parseVal fuel cs).bind fun p =>
      match skipWs p.2 with
      | [] => none
      | d :: r2 =>
        if d = ',' then (parseElems fuel r2).map fun q => (p.1 :: q.1, q.2)
        else if d = ']' then some ([p.1], r2)
        else none

/-- Read the members of a non-empty JSON object, consuming the closing
brace. -/
def parseMembers : Nat → List Char → Option (List (List Char × JVal) × List Char)
  | 0, _ => none
  | fuel + 1, cs =>
    match skipWs cs with
    | [] => none
    | c :: r =>
      if c = '"' then
        (parseStrBody r).bind fun pk =>
          match skipWs pk.2 with
          | [] => none
          | d :: r2 =>
            if d = ':' then
              (parseVal fuel r2).bind fun pv =>
                match skipWs pv.2 with
                | [] => none
                | e :: r4 =>
                  if e = ',' then
                    (parseMembers fuel r4).map fun q => ((pk.1, pv.1) :: q.1, q.2)
                  else if e = '}' then some ([(pk.1, pv.1)], r4)
                  else none
            else none
      else none

end

/-- Embedding of `json.loads` on a character list: parse one value, require
only whitespace after it. -/
def json_loads (cs : List Char) : Option JVal :=
  match parseVal (cs.length + 1) cs with
  | some (v, r) => if skipWs r = [] then some v else none
  | none => none

mutual

/-- Fuel needed by `parseVal` to read the rendering of a value. -/
def costV : PyVal → Nat
  | PyVal.pyList [] => 1
  | PyVal.pyList (x :: t) => 1 + costElems (x :: t)
  | PyVal.pyTuple [] => 1
  | PyVal.pyTuple (x :: t) => 1 + costElems (x :: t)
  | PyVal.pyDict [] => 1
  | PyVal.pyDict (kv :: t) => 1 + costMembers (kv :: t)
  | _ => 1

/-- Fuel needed by `parseElems` for the renderings of array elements. -/
def costElems : List PyVal → Nat
  | [] => 1
  | [x] => 1 + costV x
  | x :: y :: t => 1 + max (costV x) (costElems (y :: t))

/-- Fuel needed by `parseMembers` for the renderings of object members. -/
def costMembers : List (List Char × PyVal) → Nat
  | [] => 1
  | [(_, v)] => 1 + costV v
  | (_, v) :: kv :: t => 1 + max (costV v) (costMembers (kv :: t))

end

/-- The input directly after a rendered value must not extend it: it may
not begin with a digit (all other follow-sets are closed by construction). -/
def goodTail : List Char → Prop
  | [] => True
  | c :: _ => c.isDigit = false

/-! # Theorems -/

/-! ## Support: folded maximum -/

theorem le_foldl_max (l : List Nat) (a : Nat) :
    a ≤ l.foldl max a ∧ ∀ x ∈ l, x ≤ l.foldl max a := by
  induction l generalizing a with
  | nil => simp
  | cons b t ih =>
    refine ⟨le_trans (le_max_left a b) (ih (max a b)).1, ?_⟩
    intro x hx
    rcases List.mem_cons.1 hx with rfl | hx
    · exact le_trans (le_max_right a x) (ih (max a x)).1
    · exact (ih (max a b)).2 x hx

theorem le_maxTs (l : List Nat) (x : Nat) (hx : x ∈ l) : x ≤ maxTs l :=
  (le_foldl_max l 0).2 x hx

/-! ## C1 — watermark monotonicity -/

/-- **C1.** Watermark monotonicity: if every row timestamp the second run
observes in a watermark column satisfies the strict incremental predicate
against the previously persisted watermark `w1` (a whole-second value, bound
as the second-aligned microsecond timestamp `w1 * 1000000`), and the second
run persists `w2 = max_timestamp` of its result, then `w2 ≥ w1`: the
persisted watermark never moves backward. -/
theorem c1_watermark_monotonicity (df : Frame) (cols : List String) (w1 w2 : Nat)
    (hsel : ∀ c ∈ cols, ∀ cells, findCol df c = some cells →
      ∀ o ∈ cells, ∀ v, o = some v → strictPredSelects (w1 * 1000000) v = true)
    (hw2 : max_timestamp df cols = some w2) :
    w1 ≤ w2 := by
  induction cols with
  | nil => simp [max_timestamp] at hw2
  | cons c rest ih =>
    unfold max_timestamp at hw2
    cases hfc : findCol df c with
    | none =>
      rw [hfc] at hw2
      exact ih (fun c' h' => hsel c' (List.mem_cons_of_mem _ h')) hw2
    | some cells =>
      rw [hfc] at hw2
      dsimp only at hw2
      by_cases hne : somes cells ≠ []
      · rw [if_pos hne] at hw2
        obtain ⟨v0, hv0⟩ := List.exists_mem_of_ne_nil _ hne
        obtain ⟨o, ho, hov⟩ := List.mem_filterMap.1 hv0
        have hlt : w1 * 1000000 < v0 := by
          have := hsel c (List.mem_cons_self c rest) cells hfc o ho v0 (by simpa using hov)
          simpa [strictPredSelects] using this
        have hle : v0 ≤ maxTs (somes cells) := le_maxTs _ _ hv0
        have hw2' : w2 = truncSec (maxTs (somes cells)) := by
          exact (Option.some_inj.1 hw2).symm
        rw [hw2', truncSec]
        omega
      · rw [if_neg hne] at hw2
        exact ih (fun c' h' => hsel c' (List.mem_cons_of_mem _ h')) hw2

/-- Witness for C1 at a concrete frame: previous watermark 3 (seconds), one
row at timestamp 3000001 µs (strictly past the watermark), new watermark 3. -/
theorem c1_watermark_monotonicity_witness :
    (3 : Nat) ≤ 3 ∧
      max_timestamp [("updated_at", [some 3000001])] ["updated_at"] = some 3 := by
  refine ⟨?_, by decide⟩
  exact c1_watermark_monotonicity [("updated_at", [some 3000001])] ["updated_at"] 3 3
    (by decide) (by decide)

/-! ## C3 — incremental predicate policy -/

/-- **C3.** The strict `WHERE column > %(wm)s` predicate, with the previous
watermark bound as the parameter, is generated iff incremental is enabled
and a previous watermark is present; in the other cases the where-clause is
empty with no parameters (full load).  The hypothesis `hne` records that a
persisted watermark string is never empty (it is always a 19-character
`strftime` rendering), which is what Python's truthiness test relies on.
The final conjunct expresses the strictness consequence: a row whose
timestamp equals the watermark exactly is not selected. -/
theorem c3_incremental_predicate_policy (col : String) (e : Bool)
    (wm : Option String) (v : Nat) (hne : ∀ s, wm = some s → s ≠ "") :
    (build_where_incremental col e wm =
        ("WHERE " ++ col ++ " > %(wm)s", wm, true) ↔ e = true ∧ wm.isSome = true) ∧
    (¬(e = true ∧ wm.isSome = true) →
        build_where_incremental col e wm = ("", none, false)) ∧
    strictPredSelects v v = false := by
  refine ⟨⟨?_, ?_⟩, ?_, by simp [strictPredSelects]⟩
  · intro h
    by_cases hc : (e && pyTruthy wm) = true
    · have hc2 : e = true ∧ pyTruthy wm = true := by simpa using hc
      refine ⟨hc2.1, ?_⟩
      cases wm with
      | none => simp [pyTruthy] at hc2
      | some s => rfl
    · unfold build_where_incremental at h
      rw [if_neg hc] at h
      have := congrArg (fun p => p.2.2) h
      simp at this
  · rintro ⟨he, hs⟩
    rcases Option.isSome_iff_exists.1 hs with ⟨s, rfl⟩
    have hs' : s ≠ "" := hne s rfl
    have hcond : (e && pyTruthy (some s)) = true := by
      simp [pyTruthy, he, hs']
    unfold build_where_incremental
    rw [if_pos hcond]
  · intro h
    have hc : ¬((e && pyTruthy wm) = true) := by
      intro hc
      have hc2 : e = true ∧ pyTruthy wm = true := by simpa using hc
      cases hwm : wm with
      | none => rw [hwm] at hc2; simp [pyTruthy] at hc2
      | some s => exact h ⟨hc2.1, by rw [hwm]; rfl⟩
    unfold build_where_incremental
    rw [if_neg hc]

/-- Witness for C3 at concrete inputs: incremental enabled with watermark
`"2024-01-01 00:00:00"` present. -/
theorem c3_incremental_predicate_policy_witness :
    build_where_incremental "o.updated_at" true (some "2024-01-01 00:00:00") =
      ("WHERE o.updated_at > %(wm)s", some "2024-01-01 00:00:00", true) ∧
    strictPredSelects 5 5 = false := by
  have h := c3_incremental_predicate_policy "o.updated_at" true
    (some "2024-01-01 00:00:00") 5 (fun s hs => by cases hs; decide)
  exact ⟨h.1.2 ⟨rfl, rfl⟩, h.2.2⟩

/-! ## C4 — empty-result no-op -/

theorem max_timestamp_of_empty (df : Frame) (h : frameEmpty df = true)
    (cols : List String) : max_timestamp df cols = none := by
  induction cols with
  | nil => rfl
  | cons c rest ih =>
    unfold max_timestamp
    cases hfc : findCol df c with
    | none => exact ih
    | some cells =>
      have hcell : cells = [] := by
        unfold findCol at hfc
        cases hf : List.find? (fun p => p.1 == c) df with
        | none => rw [hf] at hfc; simp at hfc
        | some p =>
          rw [hf] at hfc
          simp at hfc
          have hp := List.mem_of_find?_eq_some hf
          have := List.all_eq_true.1 h p hp
          simp [List.isEmpty_iff] at this
          rw [← hfc]
          exact this
      rw [hcell]
      simpa [somes] using ih

/-- **C4.** Empty-result no-op: on a zero-row frame the per-target cycle
changes nothing durable — no artifact is written and the watermark record is
neither created nor modified — and its only observable event is the warning
(not an error); moreover `max_timestamp` on such a frame is `None`, which is
why `write_watermark` is not reached. -/
theorem c4_empty_result_noop (t : Target) (ok : Bool) (w : World) (df : Frame)
    (h : frameEmpty df = true) :
    runFactTarget t (Except.ok df) ok w = (w, [Event.warnedEmpty t.name]) ∧
    max_timestamp df t.wmCols = none := by
  have hmt := max_timestamp_of_empty df h t.wmCols
  refine ⟨?_, hmt⟩
  simp [runFactTarget, export_table, h, hmt]

/-- Witness for C4 at a concrete zero-row frame. -/
theorem c4_empty_result_noop_witness :
    runFactTarget ⟨"fact_pago", true, ["updated_at", "created_at"]⟩
        (Except.ok [("updated_at", []), ("created_at", [])]) true
        ⟨fun _ => none, fun _ => none⟩ =
      (⟨fun _ => none, fun _ => none⟩, [Event.warnedEmpty "fact_pago"]) ∧
    max_timestamp [("updated_at", []), ("created_at", [])]
        ["updated_at", "created_at"] = none :=
  c4_empty_result_noop ⟨"fact_pago", true, ["updated_at", "created_at"]⟩ true
    ⟨fun _ => none, fun _ => none⟩ [("updated_at", []), ("created_at", [])] (by decide)

/-! ## C2 — watermark commit ordering and per-target failure isolation -/

/-- **C2.** In every per-target cycle: a watermark write appears in the
event trace only as the last event of the successful trace
`[exported, wroteWatermark]` — i.e. only after `export_table` returned
without raising; if the query or the sanitize/export step raises, the
exception is caught (the cycle still returns, with the error logged), the
durable state — in particular that target's watermark record — is exactly
the initial one; and the orchestrator attempts every target in its list
regardless of other targets' outcomes. -/
theorem c2_commit_ordering_and_isolation (t : Target) (q : Except Unit Frame)
    (ok : Bool) (w : World) (ts : List Target)
    (oracle : String → Except Unit Frame × Bool) (w0 : World) :
    (∀ wm, Event.wroteWatermark t.name wm ∈ (runFactTarget t q ok w).2 →
      (runFactTarget t q ok w).2 =
        [Event.exported t.name, Event.wroteWatermark t.name wm]) ∧
    (cycleFailed q ok = true →
      (runFactTarget t q ok w).1 = w ∧
      (runFactTarget t q ok w).2 = [Event.loggedError t.name]) ∧
    (runFactTargets ts oracle w0).2.map Prod.fst = ts.map Target.name := by
  refine ⟨?_, ?_, ?_⟩
  · intro wm hmem
    cases q with
    | error e => simp [runFactTarget] at hmem
    | ok df =>
      by_cases hemp : frameEmpty df = true
      · rw [(c4_empty_result_noop t ok w df hemp).1] at hmem
        simp at hmem
      · cases hok : ok with
        | false => simp [runFactTarget, export_table, hemp, hok] at hmem
        | true =>
          cases hmx : max_timestamp df t.wmCols with
          | none => simp [runFactTarget, export_table, hemp, hok, hmx] at hmem
          | some m =>
            cases hinc : t.incrEnabled with
            | false => simp [runFactTarget, export_table, hemp, hok, hmx, hinc] at hmem
            | true =>
              simp [runFactTarget, export_table, hemp, hok, hmx, hinc] at hmem ⊢
              simp [hmem]
  · intro hf
    cases q with
    | error e => cases e; exact ⟨rfl, rfl⟩
    | ok df =>
      simp only [cycleFailed] at hf
      have h12 : frameEmpty df = false ∧ ok = false := by simpa using hf
      constructor <;> simp [runFactTarget, export_table, h12.1, h12.2]
  · induction ts generalizing w0 with
    | nil => rfl
    | cons t' rest ih =>
      unfold runFactTargets
      simpa using ih _

/-- Witness for C2 at a concrete failing cycle (query raises). -/
theorem c2_commit_ordering_and_isolation_witness :
    (runFactTarget ⟨"fact_ventas_linea", true, ["fecha_actualizacion_pedido"]⟩
        (Except.error ()) true ⟨fun _ => none, fun _ => none⟩).1 =
      ⟨fun _ => none, fun _ => none⟩ ∧
    (runFactTarget ⟨"fact_ventas_linea", true, ["fecha_actualizacion_pedido"]⟩
        (Except.error ()) true ⟨fun _ => none, fun _ => none⟩).2 =
      [Event.loggedError "fact_ventas_linea"] :=
  (c2_commit_ordering_and_isolation
    ⟨"fact_ventas_linea", true, ["fecha_actualizacion_pedido"]⟩ (Except.error ()) true
    ⟨fun _ => none, fun _ => none⟩ [] (fun _ => (Except.error (), true))
    ⟨fun _ => none, fun _ => none⟩).2.1 rfl

/-! ## C10 — totality of watermark read -/

/-- **C10.** `read_watermark` returns (without raising) `None` on every
degenerate state-file state — missing file, invalid JSON, JSON object
without a `"watermark"` key — and the orchestrator then takes the
first-run/full-load path: `build_where_incremental` with a `None` watermark
produces an empty where-clause and no parameters. -/
theorem c10_read_watermark_total (kvs : List (List Char × JVal))
    (hnk : List.find? (fun p => p.1 == "watermark".data) kvs = none)
    (col : String) (e : Bool) :
    read_watermark StateFile.absent = none ∧
    read_watermark StateFile.invalidJson = none ∧
    read_watermark (StateFile.parsed (JVal.jObj kvs)) = none ∧
    build_where_incremental col e none = ("", none, false) := by
  refine ⟨rfl, rfl, ?_, by simp [build_where_incremental, pyTruthy]⟩
  simp [read_watermark, jsonGetWatermark, hnk]

/-- Witness for C10 at a concrete object without a `"watermark"` key. -/
theorem c10_read_watermark_total_witness :
    read_watermark (StateFile.parsed (JVal.jObj [("other".data, JVal.jInt 1)])) = none ∧
    build_where_incremental "o.updated_at" true none = ("", none, false) := by
  have h := c10_read_watermark_total [("other".data, JVal.jInt 1)] rfl
    "o.updated_at" true
  exact ⟨h.2.2.1, h.2.2.2⟩

/-! ## C5 — schema stability under missing columns -/

/-- **C5, counterexample.** The claim says every logical column with no
resolvable physical candidate is emitted as a typed `NULL` literal, so the
output is entirely null-valued where the source column was absent.  For the
`estado` logical column this is false: with an empty physical column set the
emitted item is the literal `'Sin estado'::text AS estado`
(build_quotes.py:242) — a non-null default, not a `NULL` literal. -/
theorem c5_null_literal_counterexample :
    pick [] (quoteHeaderCands "estado") = none ∧
    (quoteHeaderSelect []).get? 10 = some ⟨SqlExpr.litSinEstado, "estado"⟩ ∧
    isNullLit SqlExpr.litSinEstado = false :=
  ⟨rfl, rfl, rfl⟩

/-- **C5, amended.** For every physical column set, the generated select
list contains exactly the eleven declared logical output columns under their
stable aliases, in order — no logical column is ever silently omitted — and
every logical column whose candidate list resolves to no physical column is
emitted as a typed `NULL` literal under its alias, **except** `estado`,
which degrades to the constant literal `'Sin estado'::text` instead. -/
theorem c5_schema_stability (cols : List String) :
    ((quoteHeaderSelect cols).map SelItem.outName =
      ["quote_id", "customer_id", "customer_user_id", "website_id", "po_number",
       "currency_code", "subtotal", "total", "created_at", "updated_at", "estado"]) ∧
    (pick cols (quoteHeaderCands "quote_id") = none →
      (quoteHeaderSelect cols).get? 0 = some ⟨SqlExpr.nullLit "bigint", "quote_id"⟩) ∧
    (pick cols (quoteHeaderCands "customer_id") = none →
      (quoteHeaderSelect cols).get? 1 = some ⟨SqlExpr.nullLit "bigint", "customer_id"⟩) ∧
    (pick cols (quoteHeaderCands "customer_user_id") = none →
      (quoteHeaderSelect cols).get? 2 = some ⟨SqlExpr.nullLit "bigint", "customer_user_id"⟩) ∧
    (pick cols (quoteHeaderCands "website_id") = none →
      (quoteHeaderSelect cols).get? 3 = some ⟨SqlExpr.nullLit "bigint", "website_id"⟩) ∧
    (pick cols (quoteHeaderCands "po_number") = none →
      (quoteHeaderSelect cols).get? 4 = some ⟨SqlExpr.nullLit "text", "po_number"⟩) ∧
    (pick cols (quoteHeaderCands "currency_code") = none →
      (quoteHeaderSelect cols).get? 5 = some ⟨SqlExpr.nullLit "text", "currency_code"⟩) ∧
    (pick cols (quoteHeaderCands "subtotal") = none →
      (quoteHeaderSelect cols).get? 6 = some ⟨SqlExpr.nullLit "numeric", "subtotal"⟩) ∧
    (pick cols (quoteHeaderCands "total") = none →
      (quoteHeaderSelect cols).get? 7 = some ⟨SqlExpr.nullLit "numeric", "total"⟩) ∧
    (pick cols (quoteHeaderCands "created_at") = none →
      (quoteHeaderSelect cols).get? 8 = some ⟨SqlExpr.nullLit "timestamp", "created_at"⟩) ∧
    (pick cols (quoteHeaderCands "updated_at") = none →
      (quoteHeaderSelect cols).get? 9 = some ⟨SqlExpr.nullLit "timestamp", "updated_at"⟩) ∧
    (pick cols (quoteHeaderCands "estado") = none →
      (quoteHeaderSelect cols).get? 10 = some ⟨SqlExpr.litSinEstado, "estado"⟩) := by
  refine ⟨rfl, ?_, ?_, ?_, ?_, ?_, ?_, ?_, ?_, ?_, ?_, ?_⟩ <;>
    intro h <;> simp [quoteHeaderSelect, resolveExpr, resolveEstado, h]

/-- Witness for C5 (amended) at the empty physical column set. -/
theorem c5_schema_stability_witness :
    (quoteHeaderSelect []).map SelItem.outName =
      ["quote_id", "customer_id", "customer_user_id", "website_id", "po_number",
       "currency_code", "subtotal", "total", "created_at", "updated_at", "estado"] ∧
    (quoteHeaderSelect []).get? 6 = some ⟨SqlExpr.nullLit "numeric", "subtotal"⟩ :=
  ⟨(c5_schema_stability []).1, (c5_schema_stability []).2.2.2.2.2.2.2.1 rfl⟩

/-! ## C7 — fail-fast on unresolvable mandatory identifying column -/

/-- **C7, counterexample.** The claim says the quote header's `id` is a
mandatory identifying column whose unresolvability makes query building
raise a configuration error.  It does not: with a physical column set
lacking every `id` candidate (and the base table present), the builder
succeeds and emits `NULL::bigint AS quote_id` (build_quotes.py:232). -/
theorem c7_quote_id_not_failfast_counterexample :
    pick ["customer_id"] (quoteHeaderCands "quote_id") = none ∧
    build_query_fact_cotizacion true ["customer_id"] =
      Except.ok (quoteHeaderSelect ["customer_id"]) ∧
    (quoteHeaderSelect ["customer_id"]).get? 0 =
      some ⟨SqlExpr.nullLit "bigint", "quote_id"⟩ :=
  ⟨rfl, rfl, rfl⟩

/-- **C7, amended.** Fail-fast holds for the inventory snapshot: when no
candidate physical name for the mandatory `product_id` is present,
`build_snapshot` raises a configuration error whose message names the
missing column, producing no output.  The quote header's `id`, by contrast,
is not treated as mandatory: when unresolvable the builder still succeeds,
emitting a typed `NULL` id. -/
theorem c7_mandatory_id_failfast (cols colsQ : List String)
    (hnone : pick cols productIdCands = none)
    (hq : pick colsQ (quoteHeaderCands "quote_id") = none) :
    build_snapshot_product_col cols = Except.error
      "La vista 'oro_inventory_level_granular' no expone 'product_id' (o equivalente)." ∧
    containsSub
      "La vista 'oro_inventory_level_granular' no expone 'product_id' (o equivalente).".data
      "product_id".data = true ∧
    build_query_fact_cotizacion true colsQ = Except.ok (quoteHeaderSelect colsQ) ∧
    (quoteHeaderSelect colsQ).get? 0 = some ⟨SqlExpr.nullLit "bigint", "quote_id"⟩ := by
  refine ⟨?_, by decide, rfl, ?_⟩
  · simp [build_snapshot_product_col, hnone]
  · simp [quoteHeaderSelect, resolveExpr, hq]

/-- Witness for C7 (amended) at concrete column sets missing both ids. -/
theorem c7_mandatory_id_failfast_witness :
    build_snapshot_product_col ["warehouse_id", "quantity"] = Except.error
      "La vista 'oro_inventory_level_granular' no expone 'product_id' (o equivalente)." ∧
    (quoteHeaderSelect ["customer_id"]).get? 0 =
      some ⟨SqlExpr.nullLit "bigint", "quote_id"⟩ := by
  have h := c7_mandatory_id_failfast ["warehouse_id", "quantity"] ["customer_id"] rfl rfl
  exact ⟨h.1, h.2.2.2⟩

/-! ## C6 — deterministic minimum-id child pick -/

theorem length_le_one_of_all_eq {α : Type} (l : List α) (m : α)
    (hall : ∀ x ∈ l, x = m) (hnd : l.Nodup) : l.length ≤ 1 := by
  match l with
  | [] => simp
  | [a] => simp
  | a :: b :: t =>
    exfalso
    have ha := hall a (List.mem_cons_self _ _)
    have hb := hall b (List.mem_cons_of_mem _ (List.mem_cons_self _ _))
    have := (List.nodup_cons.1 hnd).1
    rw [ha, hb] at this
    exact this (List.mem_cons_self _ _)

theorem mem_picked_filter (children : List ChildRow) (p : Nat) (c : ChildRow) :
    c ∈ (pickedRows children).filter (fun c => c.parent == p) ↔
      c ∈ children ∧ c.parent = p ∧ minIdFor children p = some c.id := by
  simp only [pickedRows, List.mem_filter, beq_iff_eq]
  constructor
  · rintro ⟨⟨hm, hmin⟩, hp⟩
    exact ⟨hm, hp, by rw [← hp]; exact hmin⟩
  · rintro ⟨hm, hp, hmin⟩
    exact ⟨⟨hm, by rw [hp]; exact hmin⟩, hp⟩

theorem picked_filter_length_le_one (children : List ChildRow) (p : Nat)
    (hids : (children.map ChildRow.id).Nodup) :
    ((pickedRows children).filter (fun c => c.parent == p)).length ≤ 1 := by
  have hsub : ((pickedRows children).filter (fun c => c.parent == p)).Sublist children :=
    (List.filter_sublist _).trans (List.filter_sublist _)
  have hnd : (((pickedRows children).filter (fun c => c.parent == p)).map
      ChildRow.id).Nodup := (hsub.map ChildRow.id).nodup hids
  cases hmin : minIdFor children p with
  | none =>
    have hnil : (pickedRows children).filter (fun c => c.parent == p) = [] := by
      cases he : (pickedRows children).filter (fun c => c.parent == p) with
      | nil => rfl
      | cons a t =>
        exfalso
        have ha : a ∈ (pickedRows children).filter (fun c => c.parent == p) := by
          rw [he]; exact List.mem_cons_self _ _
        have := ((mem_picked_filter children p a).1 ha).2.2
        rw [hmin] at this
        exact Option.noConfusion this
    rw [hnil]
    simp
  | some m =>
    have hall : ∀ x ∈ ((pickedRows children).filter
        (fun c => c.parent == p)).map ChildRow.id, x = m := by
      intro x hx
      obtain ⟨c, hc, rfl⟩ := List.mem_map.1 hx
      have := ((mem_picked_filter children p c).1 hc).2.2
      rw [hmin] at this
      exact (Option.some_inj.1 this).symm
    have := length_le_one_of_all_eq _ m hall hnd
    simpa using this

theorem exists_picked_of_has_children (children : List ChildRow) (p : Nat)
    (hne : childIds children p ≠ []) :
    ∃ c, c ∈ (pickedRows children).filter (fun c => c.parent == p) ∧
      some c.id = minIdFor children p := by
  cases hmin : minIdFor children p with
  | none =>
    exfalso
    unfold minIdFor at hmin
    rw [List.min?_eq_none_iff] at hmin
    exact hne hmin
  | some m =>
    have hmem : m ∈ childIds children p :=
      (List.min?_eq_some_iff'.mp hmin).1
    obtain ⟨c, hc, hcid⟩ := List.mem_map.1 hmem
    have hcp : c.parent = p := by
      have := (List.mem_filter.1 hc).2
      simpa using this
    refine ⟨c, (mem_picked_filter children p c).2
      ⟨(List.mem_filter.1 hc).1, hcp, ?_⟩, ?_⟩
    · rw [hmin, hcid]
    · rw [hcid]

/-- **C6.** Deterministic minimum-id child pick, for the semantics of the
generated grouped-`MIN` join pattern: provided child ids are unique, every
joined row that carries a child for parent `p` carries the child whose id is
the minimum of `p`'s child ids; each parent key matches at most one picked
child row; a parent with no children still appears, with null child fields;
and a parent with children gets a row carrying its minimum-id child. -/
theorem c6_deterministic_child_pick (parents : List Nat) (children : List ChildRow)
    (hids : (children.map ChildRow.id).Nodup) (p : Nat) (hp : p ∈ parents) :
    (∀ pr ∈ leftJoinPick parents children, ∀ c : ChildRow, pr = (p, some c) →
      c.parent = p ∧ minIdFor children p = some c.id ∧
      ∀ b ∈ childIds children p, c.id ≤ b) ∧
    ((pickedRows children).filter (fun c => c.parent == p)).length ≤ 1 ∧
    (childIds children p = [] →
      (p, (none : Option ChildRow)) ∈ leftJoinPick parents children) ∧
    (childIds children p ≠ [] → ∃ c : ChildRow,
      (p, some c) ∈ leftJoinPick parents children ∧
      some c.id = minIdFor children p) := by
  refine ⟨?_, picked_filter_length_le_one children p hids, ?_, ?_⟩
  · intro pr hpr c hprc
    obtain ⟨blk, hblk, hprblk⟩ := List.mem_flatten.1 hpr
    obtain ⟨p', hp', rfl⟩ := List.mem_map.1 hblk
    revert hprblk
    cases hflt : (pickedRows children).filter (fun c => c.parent == p') with
    | nil =>
      intro hprblk
      rw [List.mem_singleton.1 hprblk] at hprc
      exact absurd (congrArg Prod.snd hprc) (by simp)
    | cons a t =>
      intro hprblk
      have hprblk2 : pr ∈ List.map (fun c => (p', some c)) (a :: t) := hprblk
      obtain ⟨c', hc', hceq⟩ := List.mem_map.1 hprblk2
      rw [hprc] at hceq
      have hpp : p' = p := congrArg Prod.fst hceq
      have hcc : c' = c := Option.some_inj.1 (congrArg Prod.snd hceq)
      rw [← hflt] at hc'
      rw [hpp, hcc] at hc'
      have hmem := (mem_picked_filter children p c).1 hc'
      refine ⟨hmem.2.1, hmem.2.2, ?_⟩
      intro b hb
      have hmin := hmem.2.2
      have := (List.min?_eq_some_iff'.mp (show (childIds children p).min? = some c.id
        from hmin)).2
      exact this b hb
  · intro hnone
    have hflt : (pickedRows children).filter (fun c => c.parent == p) = [] := by
      cases he : (pickedRows children).filter (fun c => c.parent == p) with
      | nil => rfl
      | cons a t =>
        exfalso
        have ha : a ∈ (pickedRows children).filter (fun c => c.parent == p) := by
          rw [he]; exact List.mem_cons_self _ _
        have hmem := (mem_picked_filter children p a).1 ha
        have : a.id ∈ childIds children p := by
          unfold childIds
          exact List.mem_map.2 ⟨a, List.mem_filter.2 ⟨hmem.1, by simp [hmem.2.1]⟩, rfl⟩
        rw [hnone] at this
        simp at this
    apply List.mem_flatten.2
    refine ⟨[(p, (none : Option ChildRow))], ?_, List.mem_singleton.2 rfl⟩
    apply List.mem_map.2
    refine ⟨p, hp, ?_⟩
    rw [hflt]
  · intro hne
    obtain ⟨c, hc, hcid⟩ := exists_picked_of_has_children children p hne
    refine ⟨c, ?_, hcid⟩
    apply List.mem_flatten.2
    refine ⟨(match (pickedRows children).filter (fun c => c.parent == p) with
      | [] => [(p, (none : Option ChildRow))]
      | ms => ms.map (fun c => (p, some c))), List.mem_map.2 ⟨p, hp, rfl⟩, ?_⟩
    cases hflt : (pickedRows children).filter (fun c => c.parent == p) with
    | nil => rw [hflt] at hc; simp at hc
    | cons a t =>
      rw [hflt] at hc
      exact (show (p, some c) ∈ List.map (fun c => (p, some c)) (a :: t) from
        List.mem_map.2 ⟨c, hc, rfl⟩)

/-- Witness for C6 at parent 1 with child ids {7, 3, 9}: the single selected
child is the one with id 3. -/
theorem c6_deterministic_child_pick_witness :
    ((pickedRows [⟨7, 1⟩, ⟨3, 1⟩, ⟨9, 1⟩]).filter (fun c => c.parent == 1)).length ≤ 1 ∧
    leftJoinPick [1] [⟨7, 1⟩, ⟨3, 1⟩, ⟨9, 1⟩] = [(1, some ⟨3, 1⟩)] :=
  ⟨(c6_deterministic_child_pick [1] [⟨7, 1⟩, ⟨3, 1⟩, ⟨9, 1⟩] (by decide) 1
      (by decide)).2.1,
    by decide⟩

/-! ## C8 — deterministic column de-duplication -/

theorem lookupSeen_setSeen_self (seen : List (String × Nat)) (c : String) (v : Nat) :
    lookupSeen (setSeen seen c v) c = some v := by
  induction seen with
  | nil => simp [setSeen, lookupSeen]
  | cons kv t ih =>
    obtain ⟨k, w⟩ := kv
    by_cases hk : k = c
    · simp [setSeen, hk, lookupSeen]
    · simp [setSeen, hk, lookupSeen, ih]

theorem lookupSeen_setSeen_ne (seen : List (String × Nat)) (c s : String) (v : Nat)
    (h : s ≠ c) : lookupSeen (setSeen seen c v) s = lookupSeen seen s := by
  have hcs : ¬(c = s) := fun he => h he.symm
  induction seen with
  | nil =>
    show lookupSeen [(c, v)] s = lookupSeen [] s
    simp [lookupSeen, hcs]
  | cons kv t ih =>
    obtain ⟨k, w⟩ := kv
    by_cases hk : k = c
    · subst hk
      simp [setSeen, lookupSeen, hcs]
    · simp only [setSeen, if_neg hk]
      by_cases hks : k = s
      · simp [lookupSeen, hks]
      · simp [lookupSeen, hks, ih]

theorem muGo_eq_muFormula (l : List String) (seen : List (String × Nat))
    (pre : List String)
    (hinv : ∀ s, lookupSeen seen s =
      if pre.count s = 0 then none else some (pre.count s - 1)) :
    muGo seen l = muFormula pre l := by
  induction l generalizing seen pre with
  | nil => rfl
  | cons c rest ih =>
    have hc := hinv c
    unfold muGo muFormula renameAt
    by_cases h0 : pre.count c = 0
    · rw [if_pos h0] at hc
      rw [hc]
      dsimp only
      rw [if_pos h0]
      congr 1
      apply ih
      intro s
      by_cases hs : s = c
      · subst hs
        rw [lookupSeen_setSeen_self]
        simp [List.count_append, List.count_singleton, h0]
      · have hcs : ¬(c = s) := fun he => hs he.symm
        rw [lookupSeen_setSeen_ne _ _ _ _ hs, hinv s]
        have hkeep : (pre ++ [c]).count s = pre.count s := by
          simp [List.count_append, List.count_singleton, hcs]
        rw [hkeep]
    · rw [if_neg h0] at hc
      rw [hc]
      dsimp only
      rw [if_neg h0]
      have harith : pre.count c - 1 + 1 = pre.count c := by omega
      rw [harith]
      congr 1
      apply ih
      intro s
      by_cases hs : s = c
      · subst hs
        rw [lookupSeen_setSeen_self]
        have hplus : (pre ++ [s]).count s = pre.count s + 1 := by
          simp [List.count_append, List.count_singleton]
        rw [hplus, if_neg (by omega)]
        simp
      · have hcs : ¬(c = s) := fun he => hs he.symm
        rw [lookupSeen_setSeen_ne _ _ _ _ hs, hinv s]
        have hkeep : (pre ++ [c]).count s = pre.count s := by
          simp [List.count_append, List.count_singleton, hcs]
        rw [hkeep]

theorem make_unique_eq_muFormula (cols : List String) :
    _make_unique_columns cols = muFormula [] cols := by
  apply muGo_eq_muFormula
  intro s
  simp [lookupSeen]

theorem muFormula_length (l : List String) (pre : List String) :
    (muFormula pre l).length = l.length := by
  induction l generalizing pre with
  | nil => rfl
  | cons c rest ih => simp [muFormula, ih]

theorem muFormula_get? (l : List String) (pre : List String) (i : Nat)
    (hi : i < l.length) :
    (muFormula pre l).get? i =
      some (renameAt (pre ++ l.take i) (l.get ⟨i, hi⟩)) := by
  induction l generalizing pre i with
  | nil => exact absurd hi (by simp)
  | cons c rest ih =>
    cases i with
    | zero => simp [muFormula]
    | succ i =>
      have hi' : i < rest.length := by simpa using hi
      show (muFormula (pre ++ [c]) rest).get? i = _
      rw [ih (pre ++ [c]) i hi']
      simp [List.append_assoc]

theorem containsDD_append_dd (l ds : List Char) :
    containsDD (l ++ '_' :: '_' :: ds) = true := by
  induction l with
  | nil => simp [containsDD]
  | cons a t ih =>
    cases t with
    | nil => simp [containsDD]
    | cons b t2 =>
      show containsDD (a :: b :: (t2 ++ '_' :: '_' :: ds)) = true
      unfold containsDD
      rw [Bool.or_eq_true]
      right
      exact ih

theorem containsDD_cons_false (a : Char) (l : List Char)
    (h : containsDD (a :: l) = false) : containsDD l = false := by
  cases l with
  | nil => rfl
  | cons b t =>
    have h' : containsDD (a :: b :: t) = false := h
    unfold containsDD at h'
    exact (Bool.or_eq_false_iff.1 h').2

theorem ddfree_ne_encoded (o l ds : List Char) (ho : containsDD o = false) :
    o ≠ l ++ '_' :: '_' :: ds := by
  intro h
  rw [h, containsDD_append_dd] at ho
  exact Bool.noConfusion ho

theorem dd_encode_inj (l ds : List Char) : ∀ (bs es : List Char),
    containsDD l = false → containsDD bs = false →
    (∀ c ∈ ds, c.isDigit = true) → (∀ c ∈ es, c.isDigit = true) →
    l ++ '_' :: '_' :: ds = bs ++ '_' :: '_' :: es →
    l = bs ∧ ds = es := by
  induction l with
  | nil =>
    intro bs es _ hb hd _ heq
    rw [List.nil_append] at heq
    cases bs with
    | nil =>
      rw [List.nil_append] at heq
      injection heq with _ heq1
      injection heq1 with _ heq2
      exact ⟨rfl, heq2⟩
    | cons b bt =>
      exfalso
      rw [List.cons_append] at heq
      injection heq with hb0 heq1
      cases bt with
      | nil =>
        rw [List.nil_append] at heq1
        injection heq1 with _ heq2
        have hmem : '_' ∈ ds := by rw [heq2]; exact List.mem_cons_self _ _
        have := hd '_' hmem
        simp at this
      | cons b2 bt2 =>
        rw [List.cons_append] at heq1
        injection heq1 with hb2 _
        rw [← hb0, ← hb2] at hb
        simp [containsDD] at hb
  | cons a t ih =>
    intro bs es ha hb hd he heq
    rw [List.cons_append] at heq
    cases bs with
    | nil =>
      exfalso
      rw [List.nil_append] at heq
      injection heq with ha0 heq1
      cases t with
      | nil =>
        rw [List.nil_append] at heq1
        injection heq1 with _ heq2
        have hmem : '_' ∈ es := by rw [← heq2]; exact List.mem_cons_self _ _
        have := he '_' hmem
        simp at this
      | cons a2 t2 =>
        rw [List.cons_append] at heq1
        injection heq1 with ha2 _
        rw [ha0, ha2] at ha
        simp [containsDD] at ha
    | cons b bt =>
      rw [List.cons_append] at heq
      injection heq with hab heq2
      obtain ⟨h1, h2⟩ := ih bt es (containsDD_cons_false a t ha)
        (containsDD_cons_false b bt hb) hd he heq2
      exact ⟨by rw [hab, h1], h2⟩

theorem renameAt_dup_data (c : String) (k : Nat) :
    (c ++ "__" ++ String.mk (decDigits k)).data = c.data ++ '_' :: '_' :: decDigits k := by
  simp [String.data_append]

theorem count_take_succ_le (cols : List String) (i j : Nat) (hij : i < j)
    (_hj : j ≤ cols.length) (hi : i < cols.length) :
    (cols.take i).count (cols.get ⟨i, hi⟩) + 1 ≤
      (cols.take j).count (cols.get ⟨i, hi⟩) := by
  have h1 : cols.take (i + 1) = cols.take i ++ [cols.get ⟨i, hi⟩] := by
    rw [List.take_succ]
    congr
    rw [List.getElem?_eq_getElem hi]
    simp [List.get_eq_getElem]
  have h2 : cols.take j = cols.take (i + 1) ++ (cols.take j).drop (i + 1) := by
    conv_lhs => rw [← List.take_append_drop (i + 1) (cols.take j)]
    rw [List.take_take, min_eq_left (by omega)]
  rw [h2, List.count_append, h1, List.count_append]
  have h3 : List.count (cols.get ⟨i, hi⟩) [cols.get ⟨i, hi⟩] = 1 := by simp
  omega

/-- **C8, counterexample.** The claim's uniqueness conjunct — "the resulting
column names are pairwise unique for every input list" — fails when an input
name already carries a generated-looking `__k` suffix: on
`["price", "price__1", "price"]` the output is
`["price", "price__1", "price__1"]`, which has a duplicate. -/
theorem c8_unique_counterexample :
    _make_unique_columns ["price", "price__1", "price"] =
      ["price", "price__1", "price__1"] ∧
    ¬ (_make_unique_columns ["price", "price__1", "price"]).Nodup := by
  constructor
  · decide
  · decide

/-- **C8, amended.** `_make_unique_columns` preserves length and first-seen
order: position `i` of the output is the input name verbatim when it is that
name's first occurrence, and `name__k` when it is the k-th later duplicate
(`renameAt` is exactly that rule, with `k` the number of earlier
occurrences).  The output names are pairwise unique for every input list
whose names do not contain the substring `"__"`; names that already carry a
double underscore (such as a pre-existing `price__1`) can collide with
generated suffixes. -/
theorem c8_column_dedup (cols : List String) :
    (_make_unique_columns cols).length = cols.length ∧
    (∀ i, ∀ hi : i < cols.length,
      (_make_unique_columns cols).get? i =
        some (renameAt (cols.take i) (cols.get ⟨i, hi⟩))) ∧
    ((∀ s ∈ cols, containsDD s.data = false) →
      (_make_unique_columns cols).Nodup) := by
  have hlen : (_make_unique_columns cols).length = cols.length := by
    rw [make_unique_eq_muFormula, muFormula_length]
  have hget : ∀ i, ∀ hi : i < cols.length,
      (_make_unique_columns cols).get? i =
        some (renameAt (cols.take i) (cols.get ⟨i, hi⟩)) := by
    intro i hi
    rw [make_unique_eq_muFormula, muFormula_get? cols [] i hi]
    simp
  refine ⟨hlen, hget, ?_⟩
  intro hdd
  rw [List.nodup_iff_get?_ne_get?]
  intro i j hij hj heq
  rw [hlen] at hj
  have hi : i < cols.length := lt_trans hij hj
  rw [hget i hi, hget j hj] at heq
  have heq' : renameAt (cols.take i) (cols.get ⟨i, hi⟩) =
      renameAt (cols.take j) (cols.get ⟨j, hj⟩) := Option.some_inj.1 heq
  have hci : containsDD (cols.get ⟨i, hi⟩).data = false :=
    hdd _ (List.get_mem cols i hi)
  have hcj : containsDD (cols.get ⟨j, hj⟩).data = false :=
    hdd _ (List.get_mem cols j hj)
  have hcount := count_take_succ_le cols i j hij (le_of_lt hj) hi
  unfold renameAt at heq'
  by_cases h0i : (cols.take i).count (cols.get ⟨i, hi⟩) = 0 <;>
    by_cases h0j : (cols.take j).count (cols.get ⟨j, hj⟩) = 0
  · rw [if_pos h0i, if_pos h0j] at heq'
    rw [heq'] at hcount
    omega
  · rw [if_pos h0i, if_neg h0j] at heq'
    have := congrArg String.data heq'
    rw [renameAt_dup_data] at this
    exact ddfree_ne_encoded _ _ _ hci this
  · rw [if_neg h0i, if_pos h0j] at heq'
    have := congrArg String.data heq'.symm
    rw [renameAt_dup_data] at this
    exact ddfree_ne_encoded _ _ _ hcj this
  · rw [if_neg h0i, if_neg h0j] at heq'
    have hdata := congrArg String.data heq'
    rw [renameAt_dup_data, renameAt_dup_data] at hdata
    obtain ⟨hnames, hdigits⟩ := dd_encode_inj _ _ _ _ hci hcj
      (decDigits_all_digit _) (decDigits_all_digit _) hdata
    have hnames' : cols.get ⟨i, hi⟩ = cols.get ⟨j, hj⟩ := String.ext hnames
    have hk : (cols.take i).count (cols.get ⟨i, hi⟩) =
        (cols.take j).count (cols.get ⟨j, hj⟩) := decDigits_injective hdigits
    rw [hnames'] at hcount hk
    omega

/-- Witness for C8 (amended) on a concrete duplicate-name input. -/
theorem c8_column_dedup_witness :
    _make_unique_columns ["price", "price"] = ["price", "price__1"] ∧
    (_make_unique_columns ["price", "price"]).length = 2 ∧
    (_make_unique_columns ["price", "price"]).Nodup := by
  refine ⟨by decide, (c8_column_dedup ["price", "price"]).1,
    (c8_column_dedup ["price", "price"]).2.2 ?_⟩
  decide

/-! ## C9 — composite-value flattening round trip: support -/

theorem not_ws_of_digit (c : Char) (h : c.isDigit = true) : isWsChar c = false := by
  cases hw : isWsChar c
  · rfl
  · exfalso
    unfold isWsChar at hw
    simp only [Bool.or_eq_true, beq_iff_eq] at hw
    rcases hw with ((h1 | h1) | h1) | h1 <;> subst h1 <;> exact absurd h (by decide)

theorem skipWs_cons_of_not_ws (c : Char) (l : List Char) (h : isWsChar c = false) :
    skipWs (c :: l) = c :: l := by
  simp [skipWs, List.dropWhile_cons, h]

theorem skipWs_cons_of_ws (c : Char) (l : List Char) (h : isWsChar c = true) :
    skipWs (c :: l) = skipWs l := by
  simp [skipWs, List.dropWhile_cons, h]

/-- The head of a rendered value exists, is not whitespace, and is not a
closing delimiter. -/
def headStartsValue : List Char → Prop
  | [] => False
  | c :: _ => isWsChar c = false ∧ c ≠ ']' ∧ c ≠ '}'

theorem decDigits_head (n : Nat) :
    ∃ c t, decDigits n = c :: t ∧ c.isDigit = true := by
  cases hd : decDigits n with
  | nil => exact absurd hd (decDigits_ne_nil n)
  | cons c t =>
    refine ⟨c, t, rfl, decDigits_all_digit n c ?_⟩
    rw [hd]
    exact List.mem_cons_self _ _

theorem headStartsValue_digit (c : Char) (l : List Char) (h : c.isDigit = true) :
    headStartsValue (c :: l) := by
  refine ⟨not_ws_of_digit c h, ?_, ?_⟩ <;> rintro rfl <;> simp [Char.isDigit] at h

theorem headStartsValue_dumps (v : PyVal) : headStartsValue (dumpsVal v) := by
  cases v with
  | pyNone => exact ⟨by decide, by decide, by decide⟩
  | pyBool b => cases b <;> exact ⟨by decide, by decide, by decide⟩
  | pyInt n =>
    show headStartsValue (intChars n)
    unfold intChars
    by_cases hn : n < 0
    · rw [if_pos hn]
      exact ⟨by decide, by decide, by decide⟩
    · rw [if_neg hn]
      obtain ⟨c, t, hd, hdig⟩ := decDigits_head n.toNat
      rw [hd]
      exact headStartsValue_digit c t hdig
  | pyStr s => exact ⟨by decide, by decide, by decide⟩
  | pyList xs => exact ⟨by decide, by decide, by decide⟩
  | pyTuple xs => exact ⟨by decide, by decide, by decide⟩
  | pyDict kvs => exact ⟨by decide, by decide, by decide⟩

theorem hexVal_hexChar (n : Nat) : hexVal (hexChar n) = some (n % 16) := by
  have h := Nat.mod_lt n (show 0 < 16 by omega)
  unfold hexChar
  interval_cases h : n % 16 <;> simp only [h] <;> decide

theorem char_ofNat_hex (c : Char) (h : c.toNat < 32) :
    Char.ofNat (c.toNat / 16 % 16 * 16 + c.toNat % 16) = c := by
  have h1 : c.toNat / 16 % 16 = c.toNat / 16 := Nat.mod_eq_of_lt (by omega)
  rw [h1]
  have h4 : c.toNat / 16 * 16 + c.toNat % 16 = c.toNat := by omega
  rw [h4, Char.ofNat_toNat]

/-- The parser step for a `\uXXXX` escape. -/
theorem parseStrBody_unicode (hi lo : Char) (cs : List Char) :
    parseStrBody ('\\' :: 'u' :: '0' :: '0' :: hi :: lo :: cs) =
      (hexVal hi).bind fun vx =>
      (hexVal lo).bind fun vy =>
      (parseStrBody cs).map fun p =>
        (Char.ofNat (((0 * 16 + 0) * 16 + vx) * 16 + vy) :: p.1, p.2) := rfl

/-- The parser step at a closing quote. -/
theorem parseStrBody_quote (cs : List Char) : parseStrBody ('"' :: cs) = some ([], cs) := by
  rw [parseStrBody.eq_def]
  simp

/-- Reading back the body of an escaped string reconstructs the original
characters and stops at the closing quote. -/
theorem parseStrBody_escBody (s : List Char) (rest : List Char) :
    parseStrBody (escBody s ++ '"' :: rest) = some (s, rest) := by
  induction s with
  | nil =>
    rw [show escBody [] = [] from rfl, List.nil_append]
    exact parseStrBody_quote rest
  | cons c t ih =>
    have hbody : escBody (c :: t) = escChar c ++ escBody t := rfl
    rw [hbody, List.append_assoc]
    unfold escChar
    by_cases h1 : c = '"'
    · subst h1
      rw [if_pos rfl]
      show parseStrBody ('\\' :: '"' :: (escBody t ++ '"' :: rest)) = _
      simp [parseStrBody, unescChar, ih]
    · rw [if_neg h1]
      by_cases h2 : c = '\\'
      · subst h2
        rw [if_pos rfl]
        show parseStrBody ('\\' :: '\\' :: (escBody t ++ '"' :: rest)) = _
        simp [parseStrBody, unescChar, ih]
      · rw [if_neg h2]
        by_cases h3 : c = '\n'
        · subst h3
          rw [if_pos rfl]
          show parseStrBody ('\\' :: 'n' :: (escBody t ++ '"' :: rest)) = _
          simp [parseStrBody, unescChar, ih]
        · rw [if_neg h3]
          by_cases h4 : c = '\t'
          · subst h4
            rw [if_pos rfl]
            show parseStrBody ('\\' :: 't' :: (escBody t ++ '"' :: rest)) = _
            simp [parseStrBody, unescChar, ih]
          · rw [if_neg h4]
            by_cases h5 : c = '\r'
            · subst h5
              rw [if_pos rfl]
              show parseStrBody ('\\' :: 'r' :: (escBody t ++ '"' :: rest)) = _
              simp [parseStrBody, unescChar, ih]
            · rw [if_neg h5]
              by_cases h6 : c = Char.ofNat 8
              · subst h6
                rw [if_pos rfl]
                show parseStrBody ('\\' :: 'b' :: (escBody t ++ '"' :: rest)) = _
                simp [parseStrBody, unescChar, ih]
              · rw [if_neg h6]
                by_cases h7 : c = Char.ofNat 12
                · subst h7
                  rw [if_pos rfl]
                  show parseStrBody ('\\' :: 'f' :: (escBody t ++ '"' :: rest)) = _
                  simp [parseStrBody, unescChar, ih]
                · rw [if_neg h7]
                  by_cases h8 : c.toNat < 32
                  · rw [if_pos h8]
                    show parseStrBody ('\\' :: 'u' :: '0' :: '0' ::
                      hexChar (c.toNat / 16) :: hexChar (c.toNat % 16) ::
                      (escBody t ++ '"' :: rest)) = _
                    rw [parseStrBody_unicode, hexVal_hexChar, hexVal_hexChar, ih]
                    simp [char_ofNat_hex c h8]
                  · rw [if_neg h8]
                    show parseStrBody (c :: (escBody t ++ '"' :: rest)) = _
                    unfold parseStrBody
                    rw [if_neg h1, if_neg h2, ih]
                    rfl

theorem takeWhile_digits_split (ds rest : List Char)
    (hd : ∀ c ∈ ds, c.isDigit = true) (hr : goodTail rest) :
    (ds ++ rest).takeWhile Char.isDigit = ds ∧
    (ds ++ rest).dropWhile Char.isDigit = rest := by
  induction ds with
  | nil =>
    cases rest with
    | nil => exact ⟨rfl, rfl⟩
    | cons c t =>
      have hc : c.isDigit = false := hr
      constructor
      · simp [List.takeWhile_cons, hc]
      · simp [List.dropWhile_cons, hc]
  | cons c t ih =>
    have hc : c.isDigit = true := hd c (List.mem_cons_self _ _)
    have iht := ih (fun x hx => hd x (List.mem_cons_of_mem _ hx))
    constructor
    · simp [List.takeWhile_cons, hc, iht.1]
    · simp [List.dropWhile_cons, hc, iht.2]

theorem parseNatChars_decDigits (m : Nat) (rest : List Char) (hr : goodTail rest) :
    parseNatChars (decDigits m ++ rest) = some (m, rest) := by
  obtain ⟨htake, hdrop⟩ :=
    takeWhile_digits_split (decDigits m) rest (decDigits_all_digit m) hr
  unfold parseNatChars
  rw [htake, hdrop, if_neg (decDigits_ne_nil m), decVal_decDigits]

/-! One-step unfolding lemmas for the reader, by head character. -/

theorem parseVal_quoteStep (fuel : Nat) (cs : List Char) :
    parseVal (fuel + 1) ('"' :: cs) =
      (parseStrBody cs).map fun p => (JVal.jStr p.1, p.2) := rfl

theorem parseVal_trueStep (fuel : Nat) (cs : List Char) :
    parseVal (fuel + 1) ('t' :: 'r' :: 'u' :: 'e' :: cs) =
      some (JVal.jBool true, cs) := rfl

theorem parseVal_falseStep (fuel : Nat) (cs : List Char) :
    parseVal (fuel + 1) ('f' :: 'a' :: 'l' :: 's' :: 'e' :: cs) =
      some (JVal.jBool false, cs) := rfl

theorem parseVal_nullStep (fuel : Nat) (cs : List Char) :
    parseVal (fuel + 1) ('n' :: 'u' :: 'l' :: 'l' :: cs) =
      some (JVal.jNull, cs) := rfl

theorem parseVal_dashStep (fuel : Nat) (cs : List Char) :
    parseVal (fuel + 1) ('-' :: cs) =
      (parseNatChars cs).map fun p => (JVal.jInt (-(p.1 : Int)), p.2) := rfl

theorem parseVal_lbrackStep (fuel : Nat) (cs : List Char) :
    parseVal (fuel + 1) ('[' :: cs) =
      (match skipWs cs with
       | [] => none
       | d :: r =>
         if d = ']' then some (JVal.jArr [], r)
         else (parseElems fuel (d :: r)).map fun p => (JVal.jArr p.1, p.2)) := rfl

theorem parseVal_lbraceStep (fuel : Nat) (cs : List Char) :
    parseVal (fuel + 1) ('{' :: cs) =
      (match skipWs cs with
       | [] => none
       | d :: r =>
         if d = '}' then some (JVal.jObj [], r)
         else (parseMembers fuel (d :: r)).map fun p => (JVal.jObj p.1, p.2)) := rfl

theorem parseElems_succ (fuel : Nat) (cs : List Char) :
    parseElems (fuel + 1) cs =
      ((parseVal fuel cs).bind fun p =>
        match skipWs p.2 with
        | [] => none
        | d :: r2 =>
          if d = ',' then (parseElems fuel r2).map fun q => (p.1 :: q.1, q.2)
          else if d = ']' then some ([p.1], r2)
          else none) := rfl

theorem parseMembers_succ (fuel : Nat) (cs : List Char) :
    parseMembers (fuel + 1) cs =
      (match skipWs cs with
       | [] => none
       | c :: r =>
         if c = '"' then
           (parseStrBody r).bind fun pk =>
             match skipWs pk.2 with
             | [] => none
             | d :: r2 =>
               if d = ':' then
                 (parseVal fuel r2).bind fun pv =>
                   match skipWs pv.2 with
                   | [] => none
                   | e :: r4 =>
                     if e = ',' then
                       (parseMembers fuel r4).map fun q => ((pk.1, pv.1) :: q.1, q.2)
                     else if e = '}' then some ([(pk.1, pv.1)], r4)
                     else none
               else none
         else none) := rfl

theorem digit_not_special (c : Char) (hd : c.isDigit = true) :
    ¬(c = '"') ∧ ¬(c = 't') ∧ ¬(c = 'f') ∧ ¬(c = 'n') ∧ ¬(c = '-') ∧
      ¬(c = '[') ∧ ¬(c = '{') := by
  refine ⟨?_, ?_, ?_, ?_, ?_, ?_, ?_⟩ <;> rintro rfl <;> exact absurd hd (by decide)

theorem parseVal_digitStep (fuel : Nat) (c : Char) (cs : List Char)
    (hd : c.isDigit = true) :
    parseVal (fuel + 1) (c :: cs) =
      (parseNatChars (c :: cs)).map fun p => (JVal.jInt (p.1 : Int), p.2) := by
  obtain ⟨h1, h2, h3, h4, h5, h6, h7⟩ := digit_not_special c hd
  rw [parseVal.eq_def]
  dsimp only
  rw [skipWs_cons_of_not_ws c cs (not_ws_of_digit c hd)]
  dsimp only
  rw [if_neg h1, if_neg h2, if_neg h3, if_neg h4, if_neg h5, if_neg h6, if_neg h7,
    if_pos hd]

theorem parseVal_skipWs_congr (f : Nat) (x y : List Char) (h : skipWs x = skipWs y) :
    parseVal (f + 1) x = parseVal (f + 1) y := by
  rw [parseVal.eq_def]
  conv_rhs => rw [parseVal.eq_def]
  dsimp only
  rw [h]

theorem parseVal_ws (fuel : Nat) (c : Char) (cs : List Char) (h : isWsChar c = true) :
    parseVal fuel (c :: cs) = parseVal fuel cs := by
  cases fuel with
  | zero => rfl
  | succ f => exact parseVal_skipWs_congr f _ _ (skipWs_cons_of_ws c cs h)

theorem parseElems_ws (fuel : Nat) (c : Char) (cs : List Char) (h : isWsChar c = true) :
    parseElems fuel (c :: cs) = parseElems fuel cs := by
  cases fuel with
  | zero => rfl
  | succ f => rw [parseElems_succ, parseElems_succ, parseVal_ws f c cs h]

theorem parseMembers_ws (fuel : Nat) (c : Char) (cs : List Char)
    (h : isWsChar c = true) :
    parseMembers fuel (c :: cs) = parseMembers fuel cs := by
  cases fuel with
  | zero => rfl
  | succ f => rw [parseMembers_succ, parseMembers_succ, skipWs_cons_of_ws c cs h]

theorem joinSep_cons_cons (a b : List Char) (t : List (List Char)) :
    joinSep (a :: b :: t) = a ++ ',' :: ' ' :: joinSep (b :: t) := rfl

theorem joinSep_cons_of_ne (a : List Char) (l : List (List Char)) (h : l ≠ []) :
    joinSep (a :: l) = a ++ ',' :: ' ' :: joinSep l := by
  cases l with
  | nil => exact absurd rfl h
  | cons b t => rfl

theorem costV_pos (v : PyVal) : 1 ≤ costV v := by
  cases v with
  | pyList xs => cases xs <;> simp [costV]
  | pyTuple xs => cases xs <;> simp [costV]
  | pyDict kvs => cases kvs <;> simp [costV]
  | pyNone => simp [costV]
  | pyBool b => simp [costV]
  | pyInt n => simp [costV]
  | pyStr s => simp [costV]

theorem costElems_pos (xs : List PyVal) : 1 ≤ costElems xs := by
  cases xs with
  | nil => simp [costElems]
  | cons x t => cases t <;> simp [costElems]

theorem costMembers_pos (kvs : List (List Char × PyVal)) : 1 ≤ costMembers kvs := by
  cases kvs with
  | nil => simp [costMembers]
  | cons kv t =>
    obtain ⟨k, v⟩ := kv
    cases t <;> simp [costMembers]

theorem goodTail_cons (c : Char) (l : List Char) (h : c.isDigit = false) :
    goodTail (c :: l) := h

theorem goodTail_nil : goodTail [] := trivial

theorem dumps_head_cases (x : PyVal) :
    ∃ c0 t0, dumpsVal x = c0 :: t0 ∧ isWsChar c0 = false ∧ c0 ≠ ']' ∧ c0 ≠ '}' := by
  have h := headStartsValue_dumps x
  cases hdc : dumpsVal x with
  | nil =>
    rw [hdc] at h
    exact h.elim
  | cons c0 t0 =>
    rw [hdc] at h
    exact ⟨c0, t0, rfl, h.1, h.2.1, h.2.2⟩

theorem parse_nonempty_array (fuel : Nat)
    (ihE : ∀ xs rest, xs ≠ [] → costElems xs ≤ fuel →
      parseElems fuel (joinSep (dumpsList xs) ++ ']' :: rest) =
        some (jsonOfList xs, rest))
    (x : PyVal) (xs2 : List PyVal) (rest : List Char)
    (hce : costElems (x :: xs2) ≤ fuel) :
    parseVal (fuel + 1) ('[' :: (joinSep (dumpsList (x :: xs2)) ++ ']' :: rest)) =
      some (JVal.jArr (jsonOfList (x :: xs2)), rest) := by
  obtain ⟨c0, t0, hd0, hws0, hnb, _⟩ := dumps_head_cases x
  have hz : ∃ z, joinSep (dumpsList (x :: xs2)) = dumpsVal x ++ z := by
    cases xs2 with
    | nil => exact ⟨[], (List.append_nil _).symm⟩
    | cons y t2 =>
      exact ⟨',' :: ' ' :: joinSep (dumpsList (y :: t2)), joinSep_cons_cons _ _ _⟩
  obtain ⟨z, hzeq⟩ := hz
  rw [parseVal_lbrackStep]
  have hexp : joinSep (dumpsList (x :: xs2)) ++ ']' :: rest =
      c0 :: (t0 ++ (z ++ ']' :: rest)) := by
    rw [hzeq, hd0]
    simp [List.append_assoc]
  rw [hexp, skipWs_cons_of_not_ws c0 _ hws0]
  dsimp only
  rw [if_neg hnb, ← hexp, ihE (x :: xs2) rest (by simp) hce]
  rfl

theorem parse_nonempty_object (fuel : Nat)
    (ihM : ∀ kvs rest, kvs ≠ [] → costMembers kvs ≤ fuel →
      parseMembers fuel (joinSep (dumpsKVs kvs) ++ '}' :: rest) =
        some (jsonOfKVs kvs, rest))
    (k : List Char) (v : PyVal) (t : List (List Char × PyVal)) (rest : List Char)
    (hcm : costMembers ((k, v) :: t) ≤ fuel) :
    parseVal (fuel + 1) ('{' :: (joinSep (dumpsKVs ((k, v) :: t)) ++ '}' :: rest)) =
      some (JVal.jObj (jsonOfKVs ((k, v) :: t)), rest) := by
  rw [parseVal_lbraceStep]
  have hz : ∃ z, joinSep (dumpsKVs ((k, v) :: t)) =
      (escString k ++ ':' :: ' ' :: dumpsVal v) ++ z := by
    cases t with
    | nil => exact ⟨[], (List.append_nil _).symm⟩
    | cons kv2 t2 =>
      exact ⟨',' :: ' ' :: joinSep (dumpsKVs (kv2 :: t2)), joinSep_cons_cons _ _ _⟩
  obtain ⟨z, hzeq⟩ := hz
  have hX : joinSep (dumpsKVs ((k, v) :: t)) ++ '}' :: rest =
      '"' :: (((escBody k ++ ['"']) ++ ':' :: ' ' :: dumpsVal v ++ z) ++ '}' :: rest) := by
    rw [hzeq]
    show (('"' :: (escBody k ++ ['"'])) ++ ':' :: ' ' :: dumpsVal v ++ z) ++ '}' :: rest = _
    simp [List.append_assoc]
  rw [hX, skipWs_cons_of_not_ws '"' _ (by decide)]
  dsimp only
  rw [if_neg (by decide : ¬('"' = '}')), ← hX,
    ihM ((k, v) :: t) rest (by simp) hcm]
  rfl

theorem parse_complete (fuel : Nat) :
    (∀ v rest, costV v ≤ fuel → goodTail rest →
      parseVal fuel (dumpsVal v ++ rest) = some (jsonOfPy v, rest)) ∧
    (∀ xs rest, xs ≠ [] → costElems xs ≤ fuel →
      parseElems fuel (joinSep (dumpsList xs) ++ ']' :: rest) =
        some (jsonOfList xs, rest)) ∧
    (∀ kvs rest, kvs ≠ [] → costMembers kvs ≤ fuel →
      parseMembers fuel (joinSep (dumpsKVs kvs) ++ '}' :: rest) =
        some (jsonOfKVs kvs, rest)) := by
  induction fuel with
  | zero =>
    refine ⟨?_, ?_, ?_⟩
    · intro v rest hc _
      exact absurd hc (by have := costV_pos v; omega)
    · intro xs rest _ hc
      exact absurd hc (by have := costElems_pos xs; omega)
    · intro kvs rest _ hc
      exact absurd hc (by have := costMembers_pos kvs; omega)
  | succ fuel ih =>
    obtain ⟨ihV, ihE, ihM⟩ := ih
    refine ⟨?_, ?_, ?_⟩
    · intro v rest hc hr
      cases v with
      | pyNone => exact parseVal_nullStep fuel rest
      | pyBool b =>
        cases b
        · exact parseVal_falseStep fuel rest
        · exact parseVal_trueStep fuel rest
      | pyInt n =>
        by_cases hn : n < 0
        · have hdv : dumpsVal (PyVal.pyInt n) = '-' :: decDigits n.natAbs := by
            show intChars n = _
            rw [intChars, if_pos hn]
          rw [hdv, List.cons_append, parseVal_dashStep, parseNatChars_decDigits _ _ hr]
          have harg : -((n.natAbs : Int)) = n := by omega
          simp only [Option.map_some', harg, jsonOfPy]
        · have hdv : dumpsVal (PyVal.pyInt n) = decDigits n.toNat := by
            show intChars n = _
            rw [intChars, if_neg hn]
          obtain ⟨c0, t0, hd0, hdig⟩ := decDigits_head n.toNat
          rw [hdv, hd0, List.cons_append, parseVal_digitStep fuel c0 _ hdig,
            ← List.cons_append, ← hd0, parseNatChars_decDigits _ _ hr]
          have harg : ((n.toNat : Int)) = n := Int.toNat_of_nonneg (by omega)
          simp only [Option.map_some', harg, jsonOfPy]
      | pyStr s =>
        show parseVal (fuel + 1) ('"' :: ((escBody s ++ ['"']) ++ rest)) = _
        rw [parseVal_quoteStep, List.append_assoc, List.singleton_append,
          parseStrBody_escBody]
        rfl
      | pyList xs =>
        cases xs with
        | nil => rfl
        | cons x xs2 =>
          have hshape : dumpsVal (PyVal.pyList (x :: xs2)) ++ rest =
              '[' :: (joinSep (dumpsList (x :: xs2)) ++ ']' :: rest) := by
            show ('[' :: (joinSep (dumpsList (x :: xs2)) ++ [']'])) ++ rest = _
            rw [List.cons_append, List.append_assoc, List.singleton_append]
          rw [hshape]
          exact parse_nonempty_array fuel ihE x xs2 rest
            (by simp only [costV] at hc; omega)
      | pyTuple xs =>
        cases xs with
        | nil => rfl
        | cons x xs2 =>
          have hshape : dumpsVal (PyVal.pyTuple (x :: xs2)) ++ rest =
              '[' :: (joinSep (dumpsList (x :: xs2)) ++ ']' :: rest) := by
            show ('[' :: (joinSep (dumpsList (x :: xs2)) ++ [']'])) ++ rest = _
            rw [List.cons_append, List.append_assoc, List.singleton_append]
          rw [hshape]
          exact parse_nonempty_array fuel ihE x xs2 rest
            (by simp only [costV] at hc; omega)
      | pyDict kvs =>
        cases kvs with
        | nil => rfl
        | cons kv t =>
          obtain ⟨k, v⟩ := kv
          have hshape : dumpsVal (PyVal.pyDict ((k, v) :: t)) ++ rest =
              '{' :: (joinSep (dumpsKVs ((k, v) :: t)) ++ '}' :: rest) := by
            show ('{' :: (joinSep (dumpsKVs ((k, v) :: t)) ++ ['}'])) ++ rest = _
            rw [List.cons_append, List.append_assoc, List.singleton_append]
          rw [hshape]
          exact parse_nonempty_object fuel ihM k v t rest
            (by simp only [costV] at hc; omega)
    · intro xs rest hne hce
      cases xs with
      | nil => exact absurd rfl hne
      | cons x t =>
        rw [parseElems_succ]
        cases t with
        | nil =>
          have hcs : joinSep (dumpsList [x]) ++ ']' :: rest =
              dumpsVal x ++ ']' :: rest := rfl
          have hcx : costV x ≤ fuel := by simp only [costElems] at hce; omega
          rw [hcs, ihV x (']' :: rest) hcx (goodTail_cons ']' rest (by decide))]
          simp only [Option.some_bind]
          rw [skipWs_cons_of_not_ws ']' _ (by decide)]
          dsimp only
          rw [if_neg (by decide : ¬(']' = ',')), if_pos rfl]
          rfl
        | cons y t2 =>
          have hcs : joinSep (dumpsList (x :: y :: t2)) ++ ']' :: rest =
              dumpsVal x ++ ',' :: ' ' :: (joinSep (dumpsList (y :: t2)) ++ ']' :: rest) := by
            show (dumpsVal x ++ ',' :: ' ' :: joinSep (dumpsList (y :: t2))) ++ ']' :: rest = _
            rw [List.append_assoc]
            rfl
          have hmax : max (costV x) (costElems (y :: t2)) ≤ fuel := by
            simp only [costElems] at hce
            omega
          have hcx : costV x ≤ fuel := le_trans (le_max_left _ _) hmax
          have hct : costElems (y :: t2) ≤ fuel := le_trans (le_max_right _ _) hmax
          rw [hcs, ihV x _ hcx (goodTail_cons ',' _ (by decide))]
          simp only [Option.some_bind]
          rw [skipWs_cons_of_not_ws ',' _ (by decide)]
          dsimp only
          rw [if_pos rfl, parseElems_ws fuel ' ' _ (by decide),
            ihE (y :: t2) rest (by simp) hct]
          rfl
    · intro kvs rest hne hcm
      cases kvs with
      | nil => exact absurd rfl hne
      | cons kv t =>
        obtain ⟨k, v⟩ := kv
        rw [parseMembers_succ]
        cases t with
        | nil =>
          have hcs : joinSep (dumpsKVs [(k, v)]) ++ '}' :: rest =
              '"' :: (escBody k ++ '"' :: (':' :: ' ' :: (dumpsVal v ++ '}' :: rest))) := by
            show (('"' :: (escBody k ++ ['"'])) ++ ':' :: ' ' :: dumpsVal v) ++ '}' :: rest = _
            simp [List.append_assoc]
          have hcv : costV v ≤ fuel := by simp only [costMembers] at hcm; omega
          rw [hcs, skipWs_cons_of_not_ws '"' _ (by decide)]
          dsimp only
          rw [if_pos rfl, parseStrBody_escBody]
          simp only [Option.some_bind]
          rw [skipWs_cons_of_not_ws ':' _ (by decide)]
          dsimp only
          rw [if_pos rfl, parseVal_ws fuel ' ' _ (by decide),
            ihV v ('}' :: rest) hcv (goodTail_cons '}' rest (by decide))]
          simp only [Option.some_bind]
          rw [skipWs_cons_of_not_ws '}' _ (by decide)]
          dsimp only
          rw [if_neg (by decide : ¬('}' = ',')), if_pos rfl]
          rfl
        | cons kv2 t2 =>
          have hcs : joinSep (dumpsKVs ((k, v) :: kv2 :: t2)) ++ '}' :: rest =
              '"' :: (escBody k ++ '"' :: (':' :: ' ' :: (dumpsVal v ++
                ',' :: ' ' :: (joinSep (dumpsKVs (kv2 :: t2)) ++ '}' :: rest)))) := by
            show ((('"' :: (escBody k ++ ['"'])) ++ ':' :: ' ' :: dumpsVal v) ++
              ',' :: ' ' :: joinSep (dumpsKVs (kv2 :: t2))) ++ '}' :: rest = _
            simp [List.append_assoc]
          have hmax : max (costV v) (costMembers (kv2 :: t2)) ≤ fuel := by
            simp only [costMembers] at hcm
            omega
          have hcv : costV v ≤ fuel := le_trans (le_max_left _ _) hmax
          have hct : costMembers (kv2 :: t2) ≤ fuel := le_trans (le_max_right _ _) hmax
          rw [hcs, skipWs_cons_of_not_ws '"' _ (by decide)]
          dsimp only
          rw [if_pos rfl, parseStrBody_escBody]
          simp only [Option.some_bind]
          rw [skipWs_cons_of_not_ws ':' _ (by decide)]
          dsimp only
          rw [if_pos rfl, parseVal_ws fuel ' ' _ (by decide),
            ihV v _ hcv (goodTail_cons ',' _ (by decide))]
          simp only [Option.some_bind]
          rw [skipWs_cons_of_not_ws ',' _ (by decide)]
          dsimp only
          rw [if_pos rfl, parseMembers_ws fuel ' ' _ (by decide),
            ihM (kv2 :: t2) rest (by simp) hct]
          rfl

mutual

theorem costV_le (v : PyVal) : costV v ≤ (dumpsVal v).length + 1 := by
  match v with
  | PyVal.pyNone => simp [costV]
  | PyVal.pyBool b => simp [costV]
  | PyVal.pyInt n => simp [costV]
  | PyVal.pyStr s => simp [costV]
  | PyVal.pyList [] => simp [costV]
  | PyVal.pyList (x :: t) =>
    have h := costElems_le (x :: t) (by simp)
    have hlen : (dumpsVal (PyVal.pyList (x :: t))).length =
        (joinSep (dumpsList (x :: t))).length + 2 := by
      show ('[' :: (joinSep (dumpsList (x :: t)) ++ [']'])).length = _
      simp
    simp only [costV]
    omega
  | PyVal.pyTuple [] => simp [costV]
  | PyVal.pyTuple (x :: t) =>
    have h := costElems_le (x :: t) (by simp)
    have hlen : (dumpsVal (PyVal.pyTuple (x :: t))).length =
        (joinSep (dumpsList (x :: t))).length + 2 := by
      show ('[' :: (joinSep (dumpsList (x :: t)) ++ [']'])).length = _
      simp
    simp only [costV]
    omega
  | PyVal.pyDict [] => simp [costV]
  | PyVal.pyDict (kv :: t) =>
    have h := costMembers_le (kv :: t) (by simp)
    have hlen : (dumpsVal (PyVal.pyDict (kv :: t))).length =
        (joinSep (dumpsKVs (kv :: t))).length + 2 := by
      show ('{' :: (joinSep (dumpsKVs (kv :: t)) ++ ['}'])).length = _
      simp
    simp only [costV]
    omega

theorem costElems_le (xs : List PyVal) (h : xs ≠ []) :
    costElems xs ≤ (joinSep (dumpsList xs)).length + 2 := by
  match xs with
  | [x] =>
    have h1 := costV_le x
    have hj : joinSep (dumpsList [x]) = dumpsVal x := rfl
    simp only [costElems]
    rw [hj]
    omega
  | x :: y :: t =>
    have h1 := costV_le x
    have h2 := costElems_le (y :: t) (by simp)
    have hlen : (joinSep (dumpsList (x :: y :: t))).length =
        (dumpsVal x).length + 2 + (joinSep (dumpsList (y :: t))).length := by
      rw [show dumpsList (x :: y :: t) = dumpsVal x :: dumpsList (y :: t) from rfl,
        joinSep_cons_of_ne _ _ (by show dumpsVal y :: dumpsList t ≠ []; simp)]
      simp
      omega
    have hb : max (costV x) (costElems (y :: t)) ≤
        (dumpsVal x).length + (joinSep (dumpsList (y :: t))).length + 3 :=
      Nat.max_le.2 ⟨by omega, by omega⟩
    simp only [costElems]
    omega

theorem costMembers_le (kvs : List (List Char × PyVal)) (h : kvs ≠ []) :
    costMembers kvs ≤ (joinSep (dumpsKVs kvs)).length + 2 := by
  match kvs with
  | [(k, v)] =>
    have h1 := costV_le v
    have hj : joinSep (dumpsKVs [(k, v)]) = escString k ++ ':' :: ' ' :: dumpsVal v := rfl
    have hlen : (joinSep (dumpsKVs [(k, v)])).length =
        (escString k).length + 2 + (dumpsVal v).length := by
      rw [hj]
      simp
      omega
    simp only [costMembers]
    omega
  | (k, v) :: kv2 :: t =>
    have h1 := costV_le v
    have h2 := costMembers_le (kv2 :: t) (by simp)
    have hlen : (joinSep (dumpsKVs ((k, v) :: kv2 :: t))).length =
        (escString k).length + 2 + (dumpsVal v).length + 2 +
          (joinSep (dumpsKVs (kv2 :: t))).length := by
      rw [show dumpsKVs ((k, v) :: kv2 :: t) =
          (escString k ++ ':' :: ' ' :: dumpsVal v) :: dumpsKVs (kv2 :: t) from rfl,
        joinSep_cons_of_ne _ _ (by
          show (escString kv2.1 ++ ':' :: ' ' :: dumpsVal kv2.2) :: dumpsKVs t ≠ []
          simp)]
      simp
      omega
    have hb : max (costV v) (costMembers (kv2 :: t)) ≤
        (dumpsVal v).length + (joinSep (dumpsKVs (kv2 :: t))).length + 3 :=
      Nat.max_le.2 ⟨by omega, by omega⟩
    simp only [costMembers]
    omega

end

/-- `json.loads` reads every serialized value back as its JSON image. -/
theorem json_loads_dumps (v : PyVal) :
    json_loads (dumpsVal v) = some (jsonOfPy v) := by
  unfold json_loads
  have h := (parse_complete ((dumpsVal v).length + 1)).1 v []
    (by have := costV_le v; omega) goodTail_nil
  rw [List.append_nil] at h
  rw [h]
  rfl

mutual

theorem pyOfJson_jsonOfPy (v : PyVal) (h : tupleFree v = true) :
    pyOfJson (jsonOfPy v) = v := by
  match v with
  | PyVal.pyNone => rfl
  | PyVal.pyBool b => rfl
  | PyVal.pyInt n => rfl
  | PyVal.pyStr s => rfl
  | PyVal.pyList xs =>
    have h' : tupleFreeList xs = true := h
    show PyVal.pyList (pyOfJsonList (jsonOfList xs)) = PyVal.pyList xs
    rw [pyOfJsonList_jsonOfList xs h']
  | PyVal.pyTuple xs => exact absurd h (by simp [tupleFree])
  | PyVal.pyDict kvs =>
    have h' : tupleFreeKVs kvs = true := h
    show PyVal.pyDict (pyOfJsonKVs (jsonOfKVs kvs)) = PyVal.pyDict kvs
    rw [pyOfJsonKVs_jsonOfKVs kvs h']

theorem pyOfJsonList_jsonOfList (xs : List PyVal) (h : tupleFreeList xs = true) :
    pyOfJsonList (jsonOfList xs) = xs := by
  match xs with
  | [] => rfl
  | x :: t =>
    have h2 : (tupleFree x && tupleFreeList t) = true := h
    obtain ⟨hx, ht⟩ : tupleFree x = true ∧ tupleFreeList t = true := by
      simpa using h2
    show pyOfJson (jsonOfPy x) :: pyOfJsonList (jsonOfList t) = x :: t
    rw [pyOfJson_jsonOfPy x hx, pyOfJsonList_jsonOfList t ht]

theorem pyOfJsonKVs_jsonOfKVs (kvs : List (List Char × PyVal))
    (h : tupleFreeKVs kvs = true) : pyOfJsonKVs (jsonOfKVs kvs) = kvs := by
  match kvs with
  | [] => rfl
  | (k, v) :: t =>
    have h2 : (tupleFree v && tupleFreeKVs t) = true := h
    obtain ⟨hv, ht⟩ : tupleFree v = true ∧ tupleFreeKVs t = true := by
      simpa using h2
    show (k, pyOfJson (jsonOfPy v)) :: pyOfJsonKVs (jsonOfKVs t) = (k, v) :: t
    rw [pyOfJson_jsonOfPy v hv, pyOfJsonKVs_jsonOfKVs t ht]

end

/-! ## C9 — composite-value flattening round trip -/

/-- **C9, counterexample.** The claim includes tuples among the composite
values whose exported text cell parses back to "the original nested
structure exactly".  A tuple does not survive the trip: `to_json_string`
renders `(1, 2)` as the JSON array text `"[1, 2]"`, and parsing that back
yields a JSON array, i.e. a Python *list* `[1, 2]` — not the original
tuple. -/
theorem c9_tuple_counterexample :
    to_json_string (PyVal.pyTuple [PyVal.pyInt 1, PyVal.pyInt 2]) =
      PyVal.pyStr ['[', '1', ',', ' ', '2', ']'] ∧
    json_loads ['[', '1', ',', ' ', '2', ']'] =
      some (JVal.jArr [JVal.jInt 1, JVal.jInt 2]) ∧
    pyOfJson (JVal.jArr [JVal.jInt 1, JVal.jInt 2]) =
      PyVal.pyList [PyVal.pyInt 1, PyVal.pyInt 2] ∧
    PyVal.pyList [PyVal.pyInt 1, PyVal.pyInt 2] ≠
      PyVal.pyTuple [PyVal.pyInt 1, PyVal.pyInt 2] := by
  refine ⟨rfl, rfl, rfl, ?_⟩
  intro hcontra
  exact PyVal.noConfusion hcontra

/-- **C9, amended.** For every tuple-free composite cell value (a dict or
list, nested arbitrarily over `None`/bool/int/str scalars), the sanitizer's
text cell `to_json_string v = json.dumps(v)` parses back, via `json.loads`,
to a JSON value that reconstructs the original value exactly; scalar cells
are passed through `to_json_string` unchanged.  Tuples are excluded: as the
counterexample shows, a tuple is re-read as a list of the same elements. -/
theorem c9_composite_round_trip (v : PyVal) (htf : tupleFree v = true) :
    (isComposite v = true → to_json_string v = PyVal.pyStr (dumpsVal v)) ∧
    (isComposite v = false → to_json_string v = v) ∧
    json_loads (dumpsVal v) = some (jsonOfPy v) ∧
    pyOfJson (jsonOfPy v) = v := by
  refine ⟨?_, ?_, json_loads_dumps v, pyOfJson_jsonOfPy v htf⟩
  · intro hcomp
    unfold to_json_string
    rw [if_pos hcomp]
  · intro hcomp
    unfold to_json_string
    rw [if_neg (by simp [hcomp])]

/-- Witness for C9 (amended) at the spec's example value
`{"a": 1, "b": [2, 3]}` and at a scalar cell. -/
theorem c9_composite_round_trip_witness :
    json_loads (dumpsVal (PyVal.pyDict [("a".data, PyVal.pyInt 1),
      ("b".data, PyVal.pyList [PyVal.pyInt 2, PyVal.pyInt 3])])) =
      some (jsonOfPy (PyVal.pyDict [("a".data, PyVal.pyInt 1),
        ("b".data, PyVal.pyList [PyVal.pyInt 2, PyVal.pyInt 3])])) ∧
    to_json_string (PyVal.pyInt 7) = PyVal.pyInt 7 :=
  ⟨(c9_composite_round_trip (PyVal.pyDict [("a".data, PyVal.pyInt 1),
      ("b".data, PyVal.pyList [PyVal.pyInt 2, PyVal.pyInt 3])]) (by decide)).2.2.1,
   (c9_composite_round_trip (PyVal.pyInt 7) rfl).2.1 rfl⟩

end DW
